import Mathlib

/-!
# Selective Repeat sender and receiver (`sr.c`)

A shallow embedding of the protocol code of `sr.c` and theorems about it.

Conventions of the embedding.

* A C `int` is an `Int`; `+` and `-` on `int` are taken in two's complement
  (`iadd`, `isub`, wrapping at 32 bits) and `%` is C's truncated remainder
  (`imod`).
* The file-scope arrays of `SEQSPACE` elements are lists; an access is
  guarded by `inBounds`, and an access outside `[0, SEQSPACE)` ends the call
  with `Res.outOfBounds`.
* The two `while` loops take a fuel: the number of times the loop condition
  may be evaluated.  `Res.outOfFuel` is returned when it is used up.
* The calls a routine makes to the emulator (`tolayer3`, `tolayer5`,
  `starttimer`, `stoptimer`) are returned as the list of `Event`s of the
  call, in program order.  The `printf` diagnostics are not modelled.
-/

namespace SR

/-! ## Constants -/

/-- The constant `#define SEQSPACE 12`. -/
def SEQSPACE : Int := 12

/-- The constant `#define WINDOWSIZE 6`. -/
def WINDOWSIZE : Int := 6

/-- The constant `#define NOTINUSE (-1)`. -/
def NOTINUSE : Int := -1

/-- The constant `#define TIMEOUT 16.0`; the literal is only ever passed on to
`starttimer`, and is represented by the integer 16. -/
def TIMEOUT : Int := 16

/-- Modelled from the spec: the entity identifier `B` of `emulator.h`, which
is not among the sources; the receiver passes it to `tolayer3` and
`tolayer5` (the sender passes the literal `0`). -/
def B : Int := 1

/-! ## C integer arithmetic -/

/-- Two's complement reduction of an integer to the range of a 32 bit `int`. -/
def wrap32 (x : Int) : Int := (x + 2147483648) % 4294967296 - 2147483648

/-- The sum `a + b` of two `int`s. -/
def iadd (a b : Int) : Int := wrap32 (a + b)

/-- The difference `a - b` of two `int`s. -/
def isub (a b : Int) : Int := wrap32 (a - b)

/-- The remainder `a % b` of C, which truncates towards zero. -/
def imod (a b : Int) : Int := Int.tmod a b

/-- An index is inside an array of `SEQSPACE` elements. -/
def inBounds (i : Int) : Bool := decide (0 ≤ i) && decide (i < SEQSPACE)

/-! ## Data model -/

/-- Modelled from the spec: `struct pkt` of `emulator.h`, which is not among
the sources: sequence number, acknowledgment number, checksum and a payload
of 20 `char`s (a list, of length 20 in a well-formed packet). -/
structure Pkt where
  seqnum : Int
  acknum : Int
  checksum : Int
  payload : List Int
deriving DecidableEq, Repr

/-- Modelled from the spec: `struct msg` of `emulator.h`, which is not among
the sources: the 20 `char`s of an application message. -/
structure Msg where
  data : List Int
deriving DecidableEq, Repr

/-- The all-zero packet, the value of a slot of a static array at program
start. -/
def Pkt.zero : Pkt := { seqnum := 0, acknum := 0, checksum := 0, payload := List.replicate 20 0 }

/-- A call made to the emulator. -/
inductive Event where
  | tolayer3 (entity : Int) (packet : Pkt)
  | tolayer5 (entity : Int) (data : List Int)
  | starttimer (entity : Int) (increment : Int)
  | stoptimer (entity : Int)
deriving DecidableEq, Repr

/-- The outcome of a call: it returns, or it accesses an array outside its
bounds, or a loop uses up its fuel. -/
inductive Res (α : Type) where
  | ok (a : α)
  | outOfBounds
  | outOfFuel
deriving DecidableEq, Repr

/-- The variables of the sender: `window`, `acked`, `base`, `nextseqnum`, and
the statistics counters of the emulator that the sender increments. -/
structure Sender where
  window : List Pkt
  acked : List Bool
  base : Int
  nextseqnum : Int
  window_full : Int
  new_ACKs : Int
  packets_resent : Int
deriving DecidableEq, Repr

/-- The variables of the receiver: `recv_buffer`, `received`,
`expected_seqnum`, `B_nextseqnum`, and the statistics counter of the emulator
that the receiver increments. -/
structure Receiver where
  recv_buffer : List Pkt
  received : List Bool
  expected_seqnum : Int
  B_nextseqnum : Int
  packets_received : Int
deriving DecidableEq, Repr

/-! ## Integrity codec -/

/-- The loop `for (i = 0; i < 20; i++) checksum += payload[i];`. -/
def addPayload (checksum : Int) (payload : List Int) : Int :=
  (List.range 20).foldl (fun c i => iadd c (payload.getD i 0)) checksum

/-- The function `ComputeChecksum`. -/
def ComputeChecksum (packet : Pkt) : Int :=
  let checksum := packet.seqnum
  let checksum := iadd checksum packet.acknum
  addPayload checksum packet.payload

/-- The function `IsCorrupted`. -/
def IsCorrupted (packet : Pkt) : Bool :=
  if packet.checksum = ComputeChecksum packet then false else true

/-! ## Sender -/

/-- The function `A_output`. -/
def A_output (s : Sender) (message : Msg) : Res (Sender × List Event) :=
  if imod (isub (iadd s.nextseqnum SEQSPACE) s.base) SEQSPACE ≥ WINDOWSIZE then
    .ok ({ s with window_full := iadd s.window_full 1 }, [])
  else
    let payload := (List.range 20).map (fun i => message.data.getD i 0)
    let pkt : Pkt :=
      { seqnum := s.nextseqnum
        acknum := -1
        payload := payload
        checksum := addPayload (iadd s.nextseqnum (-1)) payload }
    if inBounds s.nextseqnum then
      let timer := if s.base = s.nextseqnum then [Event.starttimer 0 TIMEOUT] else []
      .ok ({ s with
              window := s.window.set s.nextseqnum.toNat pkt
              acked := s.acked.set s.nextseqnum.toNat false
              nextseqnum := imod (iadd s.nextseqnum 1) SEQSPACE },
           Event.tolayer3 0 pkt :: timer)
    else .outOfBounds

/-- The expression assigned to `in_window` in `A_input`. -/
def in_window (base nextseqnum acknum : Int) : Bool :=
  (decide (base ≤ acknum) && decide (acknum < nextseqnum)) ||
    (decide (base > nextseqnum) && (decide (acknum ≥ base) || decide (acknum < nextseqnum)))

/-- The loop `while (acked[base]) base = (base + 1) % SEQSPACE;` of
`A_input`. -/
def slideBase : Nat → List Bool → Int → Res Int
  | 0, _, _ => .outOfFuel
  | fuel + 1, acked, base =>
    if inBounds base then
      if acked.getD base.toNat false then
        slideBase fuel acked (imod (iadd base 1) SEQSPACE)
      else .ok base
    else .outOfBounds

/-- The function `A_input`. -/
def A_input (fuel : Nat) (s : Sender) (packet : Pkt) : Res (Sender × List Event) :=
  let acknum := packet.acknum
  let checksum := addPayload (iadd packet.seqnum packet.acknum) packet.payload
  if checksum ≠ packet.checksum then .ok (s, [])
  else if !in_window s.base s.nextseqnum acknum then .ok (s, [])
  else if !inBounds acknum then .outOfBounds
  else if s.acked.getD acknum.toNat false then .ok (s, [])
  else
    let acked := s.acked.set acknum.toNat true
    match slideBase fuel acked s.base with
    | .ok base =>
      let s2 := { s with acked := acked, new_ACKs := iadd s.new_ACKs 1, base := base }
      if base = s.nextseqnum then .ok (s2, [Event.stoptimer 0])
      else .ok (s2, [Event.stoptimer 0, Event.starttimer 0 TIMEOUT])
    | .outOfBounds => .outOfBounds
    | .outOfFuel => .outOfFuel

/-- The function `A_timerinterrupt`. -/
def A_timerinterrupt (s : Sender) : Res (Sender × List Event) :=
  if inBounds s.base then
    .ok ({ s with packets_resent := iadd s.packets_resent 1 },
         [Event.starttimer 0 TIMEOUT, Event.tolayer3 0 (s.window.getD s.base.toNat Pkt.zero)])
  else .outOfBounds

/-- The function `A_init`: the loop writes `false` to each of the
`SEQSPACE` slots of `acked`. -/
def A_init (s : Sender) : Sender :=
  { s with base := 0, nextseqnum := 0, acked := List.replicate SEQSPACE.toNat false }

/-! ## Receiver -/

/-- The acknowledgment packet `ackpkt` that `B_input` builds: `seqnum` is
`NOTINUSE`, the payload 20 zero bytes, the checksum `acknum + seqnum`. -/
def ackpkt (acknum : Int) : Pkt :=
  { acknum := acknum
    seqnum := NOTINUSE
    checksum := iadd acknum NOTINUSE
    payload := (List.range 20).map (fun _ => 0) }

/-- The delivery loop `while (received[expected_seqnum]) ...` of
`B_input`. -/
def deliverSweep : Nat → Receiver → Res (Receiver × List Event)
  | 0, _ => .outOfFuel
  | fuel + 1, r =>
    if inBounds r.expected_seqnum then
      if r.received.getD r.expected_seqnum.toNat false then
        let ev := Event.tolayer5 B (r.recv_buffer.getD r.expected_seqnum.toNat Pkt.zero).payload
        match deliverSweep fuel
            { r with
              received := r.received.set r.expected_seqnum.toNat false
              expected_seqnum := imod (iadd r.expected_seqnum 1) SEQSPACE } with
        | .ok (r2, evs) => .ok (r2, ev :: evs)
        | .outOfBounds => .outOfBounds
        | .outOfFuel => .outOfFuel
      else .ok (r, [])
    else .outOfBounds

/-- The statements `packets_received++; if (!received[packet.seqnum]) { ... }`
of `B_input`: a packet whose flag is clear is stored and flagged, a packet
whose flag is set changes nothing but the counter. -/
def bufferPacket (r : Receiver) (packet : Pkt) : Receiver :=
  let r1 := { r with packets_received := iadd r.packets_received 1 }
  if !r1.received.getD packet.seqnum.toNat false then
    { r1 with
      recv_buffer := r1.recv_buffer.set packet.seqnum.toNat packet
      received := r1.received.set packet.seqnum.toNat true }
  else r1

/-- The function `B_input`. -/
def B_input (fuel : Nat) (r : Receiver) (packet : Pkt) : Res (Receiver × List Event) :=
  let checksum := addPayload (iadd packet.seqnum packet.acknum) packet.payload
  if checksum ≠ packet.checksum then
    .ok (r, [Event.tolayer3 B (ackpkt (imod (isub (iadd r.expected_seqnum SEQSPACE) 1) SEQSPACE))])
  else if !inBounds packet.seqnum then .outOfBounds
  else
    match deliverSweep fuel (bufferPacket r packet) with
    | .ok (r3, evs) => .ok (r3, Event.tolayer3 B (ackpkt packet.seqnum) :: evs)
    | .outOfBounds => .outOfBounds
    | .outOfFuel => .outOfFuel

/-- The function `B_init`. -/
def B_init (r : Receiver) : Receiver :=
  { r with
    expected_seqnum := 0
    B_nextseqnum := 1
    received := List.replicate SEQSPACE.toNat false }

/-! ## Well-formed values and reachable states -/

/-- A packet as the C type admits it: `seqnum` and `acknum` are 32 bit
`int`s, the payload has 20 bytes, and a byte is a `char` (signed or unsigned:
between -128 and 255). -/
def Pkt.WF (p : Pkt) : Prop :=
  -2147483648 ≤ p.seqnum ∧ p.seqnum < 2147483648 ∧
  -2147483648 ≤ p.acknum ∧ p.acknum < 2147483648 ∧
  p.payload.length = 20 ∧ ∀ b ∈ p.payload, -128 ≤ b ∧ b ≤ 255

instance (p : Pkt) : Decidable p.WF := by
  unfold Pkt.WF
  infer_instance

/-- A message has 20 bytes. -/
def Msg.WF (m : Msg) : Prop := m.data.length = 20

instance (m : Msg) : Decidable m.WF := by
  unfold Msg.WF
  infer_instance

/-- The arrays of the sender have `SEQSPACE` slots. -/
def Sender.WF (s : Sender) : Prop := s.window.length = 12 ∧ s.acked.length = 12

instance (s : Sender) : Decidable s.WF := by
  unfold Sender.WF
  infer_instance

/-- The arrays of the receiver have `SEQSPACE` slots. -/
def Receiver.WF (r : Receiver) : Prop := r.recv_buffer.length = 12 ∧ r.received.length = 12

instance (r : Receiver) : Decidable r.WF := by
  unfold Receiver.WF
  infer_instance

/-- The circular range test in the words of the specification: `acknum` lies
in `[base, nextseqnum)` modulo `SEQSPACE`, by modular distance from `base`. -/
def inCircRange (base nextseqnum acknum : Int) : Prop :=
  (acknum - base) % SEQSPACE < (nextseqnum - base) % SEQSPACE

instance (base nextseqnum acknum : Int) : Decidable (inCircRange base nextseqnum acknum) := by
  unfold inCircRange
  infer_instance

/-- The sender states reachable from `A_init` by calls of `A_output`,
`A_input` (with an `acknum` in `[0, SEQSPACE)`) and `A_timerinterrupt` that
return. -/
inductive SReach : Sender → Prop where
  | init (s0 : Sender) : s0.WF → SReach (A_init s0)
  | output (s : Sender) (m : Msg) (s2 : Sender) (evs : List Event) :
      SReach s → A_output s m = .ok (s2, evs) → SReach s2
  | input (fuel : Nat) (s : Sender) (p : Pkt) (s2 : Sender) (evs : List Event) :
      SReach s → 0 ≤ p.acknum → p.acknum < SEQSPACE →
      A_input fuel s p = .ok (s2, evs) → SReach s2
  | timer (s s2 : Sender) (evs : List Event) :
      SReach s → A_timerinterrupt s = .ok (s2, evs) → SReach s2

/-- The state of the sender's variables at program start: static storage is
zero. -/
def Sender.boot : Sender :=
  { window := List.replicate 12 Pkt.zero
    acked := List.replicate 12 false
    base := 0
    nextseqnum := 0
    window_full := 0
    new_ACKs := 0
    packets_resent := 0 }

/-- The state of the receiver's variables at program start: static storage is
zero. -/
def Receiver.boot : Receiver :=
  { recv_buffer := List.replicate 12 Pkt.zero
    received := List.replicate 12 false
    expected_seqnum := 0
    B_nextseqnum := 0
    packets_received := 0 }

/-- The invariant of the sender that the window bound rests on.  Besides the
ranges of `base` and `nextseqnum` and the bound on the window, it records
which `acked` flags are set outside the window: before `nextseqnum` has
wrapped, the flags below `base` are set and those from `nextseqnum` on are
clear; afterwards every flag outside the circular range `[base, nextseqnum)`
is set (a flag is never cleared when `base` slides over it). -/
def SInv (s : Sender) : Prop :=
  s.acked.length = 12 ∧ 0 ≤ s.base ∧ s.base < 12 ∧ 0 ≤ s.nextseqnum ∧ s.nextseqnum < 12 ∧
  (s.nextseqnum - s.base) % 12 ≤ 6 ∧
  ((s.base ≤ s.nextseqnum ∧
      (∀ i : Nat, (i : Int) < s.base → s.acked.getD i false = true) ∧
      (∀ i : Nat, s.nextseqnum ≤ (i : Int) → i < 12 → s.acked.getD i false = false)) ∨
    (∀ i : Nat, i < 12 → ¬ (((i : Int) - s.base) % 12 < (s.nextseqnum - s.base) % 12) →
      s.acked.getD i false = true))

/-! ## Runs and concrete inputs -/

/-- The events of a call that returned. -/
def Res.events {α : Type} : Res (α × List Event) → Option (List Event)
  | .ok (_, evs) => some evs
  | .outOfBounds => none
  | .outOfFuel => none

/-- The state after a call that returned. -/
def Res.state {α : Type} : Res (α × List Event) → Option α
  | .ok (a, _) => some a
  | .outOfBounds => none
  | .outOfFuel => none

/-- The payloads passed to `tolayer5` among the events of a run, in order. -/
def delivered : List Event → List (List Int)
  | [] => []
  | Event.tolayer5 _ d :: es => d :: delivered es
  | Event.tolayer3 _ _ :: es => delivered es
  | Event.starttimer _ _ :: es => delivered es
  | Event.stoptimer _ :: es => delivered es

/-- Sequencing of calls: the second is made if the first returns. -/
def Res.bind {α β : Type} : Res α → (α → Res β) → Res β
  | .ok a, f => f a
  | .outOfBounds, _ => .outOfBounds
  | .outOfFuel, _ => .outOfFuel

/-- The receiver is fed a list of packets, one call of `B_input` each; the
events of the calls are concatenated. -/
def runB (fuel : Nat) : Receiver → List Pkt → Res (Receiver × List Event)
  | r, [] => .ok (r, [])
  | r, p :: ps =>
    (B_input fuel r p).bind fun x1 =>
      (runB fuel x1.1 ps).bind fun x2 => .ok (x2.1, x1.2 ++ x2.2)

/-- A number `n` of rounds at the sender: `A_output` of the message `m`
followed by `A_input` of the acknowledgment of the packet just sent. -/
def ackRounds (fuel : Nat) (m : Msg) : Nat → Sender → Res Sender
  | 0, s => .ok s
  | n + 1, s =>
    (A_output s m).bind fun x1 =>
      (A_input fuel x1.1 (ackpkt s.nextseqnum)).bind fun x2 => ackRounds fuel m n x2.1

/-- A message of 20 bytes, all equal to `b`. -/
def msgOf (b : Int) : Msg := { data := List.replicate 20 b }

/-- The data packet with sequence number `seq` for the message `msgOf b`, as
`A_output` builds it. -/
def dataPkt (seq b : Int) : Pkt :=
  { seqnum := seq
    acknum := -1
    payload := List.replicate 20 b
    checksum := addPayload (iadd seq (-1)) (List.replicate 20 b) }

/-- The sender after `n` rounds from `A_init` (the boot state if the run does
not return). -/
def afterRounds (n : Nat) : Sender :=
  match ackRounds 13 (msgOf 7) n (A_init Sender.boot) with
  | .ok s => s
  | .outOfBounds => Sender.boot
  | .outOfFuel => Sender.boot

/-- The sender after 11 rounds and one more `A_output`. -/
def lastSend : Sender :=
  match A_output (afterRounds 11) (msgOf 7) with
  | .ok (s, _) => s
  | .outOfBounds => Sender.boot
  | .outOfFuel => Sender.boot

/-- The arrivals 0, 0, 1, 2, ..., 11 at the receiver; packet `i` carries the
byte `i` 20 times. -/
def dupArrivals : List Pkt :=
  ([0, 0, 1, 2, 3, 4, 5, 6, 7, 8, 9, 10, 11] : List Int).map (fun i => dataPkt i i)

/-- The sender after `A_init` and one `A_output`. -/
def firstSend : Sender :=
  match A_output (A_init Sender.boot) (msgOf 7) with
  | .ok (s, _) => s
  | .outOfBounds => Sender.boot
  | .outOfFuel => Sender.boot

/-- The receiver after `B_init` and the arrival of packet 0. -/
def firstRecv : Receiver :=
  match B_input 13 (B_init Receiver.boot) (dataPkt 0 7) with
  | .ok (r, _) => r
  | .outOfBounds => Receiver.boot
  | .outOfFuel => Receiver.boot

/-- A sender state whose window is full: `base = 0`, `nextseqnum = 6`. -/
def fullWindow : Sender := { Sender.boot with nextseqnum := 6 }

/-- The receiver's state while the packets `pk i`, `i < n`, arrive once each:
`seen` lists the sequence numbers that have arrived, `d` counts the payloads
delivered so far.  The packets below `d` have all arrived, the flags that
are set are those of the arrived packets from `d` on, and these packets sit
in `recv_buffer`. -/
def PInv (n : Nat) (pk : Nat → Pkt) (seen : List Nat) (d : Nat) (r : Receiver) : Prop :=
  r.recv_buffer.length = 12 ∧ r.received.length = 12 ∧ d ≤ n ∧
  r.expected_seqnum = (d : Int) % 12 ∧
  (∀ i, i < d → i ∈ seen) ∧
  (∀ i, i < 12 → (r.received.getD i false = true ↔ (d ≤ i ∧ i ∈ seen))) ∧
  (∀ i, d ≤ i → i ∈ seen → r.recv_buffer.getD i Pkt.zero = pk i) ∧
  (∀ i, i ∈ seen → i < n)

/-- The packets handed to `tolayer3` among the events of a run, in order. -/
def sentPkts : List Event → List Pkt
  | [] => []
  | Event.tolayer3 _ p :: es => p :: sentPkts es
  | Event.tolayer5 _ _ :: es => sentPkts es
  | Event.starttimer _ _ :: es => sentPkts es
  | Event.stoptimer _ :: es => sentPkts es

/-- The receiver states reachable from `B_init` by calls of `B_input`, on
packets with `seqnum` in `[0, SEQSPACE)`, that return. -/
inductive RReach : Receiver → Prop where
  | init (r0 : Receiver) : r0.WF → RReach (B_init r0)
  | input (fuel : Nat) (r : Receiver) (p : Pkt) (r2 : Receiver) (evs : List Event) :
      RReach r → 0 ≤ p.seqnum → p.seqnum < SEQSPACE →
      B_input fuel r p = .ok (r2, evs) → RReach r2

/-- The invariant of the receiver between calls: the arrays have their
length, `expected_seqnum` is in `[0, SEQSPACE)`, and the flag at
`expected_seqnum` is clear (the delivery sweep stopped there). -/
def RInv (r : Receiver) : Prop :=
  r.WF ∧ 0 ≤ r.expected_seqnum ∧ r.expected_seqnum < 12 ∧
  r.received.getD r.expected_seqnum.toNat false = false

/-- The receiver after `B_init` and the arrival of the uncorrupted packets
with the sequence numbers `seqs`, packet `i` carrying the byte `i` 20 times
(the boot state if the run does not return). -/
def recvAfter (seqs : List Int) : Receiver :=
  match runB 13 (B_init Receiver.boot) (seqs.map (fun i => dataPkt i i)) with
  | .ok (r, _) => r
  | .outOfBounds => Receiver.boot
  | .outOfFuel => Receiver.boot

/-- A call of the emulator into the sender. -/
inductive Call where
  | output (m : Msg)
  | input (p : Pkt)
  | timeout
deriving DecidableEq, Repr

/-- One call into the sender. -/
def callA (fuel : Nat) (s : Sender) : Call → Res (Sender × List Event)
  | .output m => A_output s m
  | .input p => A_input fuel s p
  | .timeout => A_timerinterrupt s

/-- The sender runs a list of calls; the events of the calls are
concatenated. -/
def runA (fuel : Nat) : Sender → List Call → Res (Sender × List Event)
  | s, [] => .ok (s, [])
  | s, c :: cs =>
    (callA fuel s c).bind fun x1 =>
      (runA fuel x1.1 cs).bind fun x2 => .ok (x2.1, x1.2 ++ x2.2)

/-- The `acknum` of a packet given to `A_input` is a sequence number. -/
def Call.inRange : Call → Bool
  | .output _ => true
  | .input p => decide (0 ≤ p.acknum) && decide (p.acknum < SEQSPACE)
  | .timeout => true

/-- The timer of the sender as a boolean: `starttimer(0, _)` sets it,
`stoptimer(0)` clears it, the other calls leave it. -/
def timerStep (t : Bool) : Event → Bool
  | Event.starttimer e _ => if e = 0 then true else t
  | Event.stoptimer e => if e = 0 then false else t
  | Event.tolayer3 _ _ => t
  | Event.tolayer5 _ _ => t

/-- The timer after the events of a call, in order. -/
def timerAfter (t : Bool) (evs : List Event) : Bool := evs.foldl timerStep t

/-- The sender states, with the state of the timer, reachable from `A_init`
with the timer clear.  `A_timerinterrupt` is called only while the timer is
set, and the timer is cleared when it fires, before the handler runs. -/
inductive TReach : Sender → Bool → Prop where
  | init (s0 : Sender) : s0.WF → TReach (A_init s0) false
  | output (s : Sender) (t : Bool) (m : Msg) (s2 : Sender) (evs : List Event) :
      TReach s t → A_output s m = .ok (s2, evs) → TReach s2 (timerAfter t evs)
  | input (fuel : Nat) (s : Sender) (t : Bool) (p : Pkt) (s2 : Sender) (evs : List Event) :
      TReach s t → 0 ≤ p.acknum → p.acknum < SEQSPACE →
      A_input fuel s p = .ok (s2, evs) → TReach s2 (timerAfter t evs)
  | timer (s s2 : Sender) (evs : List Event) :
      TReach s true → A_timerinterrupt s = .ok (s2, evs) → TReach s2 (timerAfter false evs)

/-- Six submits, then eight times an acknowledgment of the oldest packet and
a submit, then the acknowledgments of 8, 9 and 10: the window is never empty
and ends as `[11, 2)`, wrapped round the sequence space. -/
def wrapScript : List Call :=
  List.replicate 6 (Call.output (msgOf 7)) ++
  ([0, 1, 2, 3, 4, 5, 6, 7] : List Int).flatMap
    (fun k => [Call.input (ackpkt k), Call.output (msgOf 7)]) ++
  [Call.input (ackpkt 8), Call.input (ackpkt 9), Call.input (ackpkt 10)]

/-- The sender after `A_init` and the calls of `wrapScript`. -/
def wrapped : Sender :=
  match runA 13 (A_init Sender.boot) wrapScript with
  | .ok (s, _) => s
  | .outOfBounds => Sender.boot
  | .outOfFuel => Sender.boot

/-- The data packet that `A_output` builds for a message of 20 bytes when
`nextseqnum` is `seq`. -/
def mkData (seq : Int) (m : Msg) : Pkt :=
  { seqnum := seq
    acknum := -1
    payload := m.data
    checksum := addPayload (iadd seq (-1)) m.data }

/-- The data packets for the messages `msgs`, numbered from `k`. -/
def dataPkts : Nat → List Msg → List Pkt
  | _, [] => []
  | k, m :: ms => mkData k m :: dataPkts (k + 1) ms

/-! ## Arithmetic and list lemmas -/

theorem wrap32_of_range (x : Int) (h1 : -2147483648 ≤ x) (h2 : x < 2147483648) :
    wrap32 x = x := by
  unfold wrap32
  omega

theorem wrap32_range (x : Int) : -2147483648 ≤ wrap32 x ∧ wrap32 x < 2147483648 := by
  unfold wrap32
  omega

theorem wrap32_modEq (x : Int) : wrap32 x % 4294967296 = x % 4294967296 := by
  unfold wrap32
  omega

theorem windowCount_eq (b n : Int) (hb1 : 0 ≤ b) (hb2 : b < SEQSPACE) (hn1 : 0 ≤ n)
    (hn2 : n < SEQSPACE) :
    imod (isub (iadd n SEQSPACE) b) SEQSPACE = (n - b) % SEQSPACE := by
  simp only [SEQSPACE] at *
  have h1 : iadd n 12 = n + 12 := wrap32_of_range _ (by omega) (by omega)
  have h2 : isub (n + 12) b = n + 12 - b := wrap32_of_range _ (by omega) (by omega)
  rw [h1, h2]
  unfold imod
  rw [Int.tmod_eq_emod (by omega) (by omega)]
  omega

theorem succMod_eq (n : Int) (hn1 : 0 ≤ n) (hn2 : n < SEQSPACE) :
    imod (iadd n 1) SEQSPACE = (n + 1) % SEQSPACE := by
  simp only [SEQSPACE] at *
  have h1 : iadd n 1 = n + 1 := wrap32_of_range _ (by omega) (by omega)
  rw [h1]
  unfold imod
  rw [Int.tmod_eq_emod (by omega) (by omega)]

theorem inBounds_iff (i : Int) : inBounds i = true ↔ 0 ≤ i ∧ i < SEQSPACE := by
  simp [inBounds]

theorem getD_set_eq {α : Type} (l : List α) (i : Nat) (v d : α) (h : i < l.length) :
    (l.set i v).getD i d = v := by
  simp [List.getD_eq_getElem?_getD, List.getElem?_set, h]

theorem getD_set_ne {α : Type} (l : List α) (i j : Nat) (v d : α) (h : i ≠ j) :
    (l.set i v).getD j d = l.getD j d := by
  simp [List.getD_eq_getElem?_getD, List.getElem?_set_ne h]

theorem map_getD_range {α : Type} (l : List α) (d : α) (n : Nat) (h : l.length = n) :
    (List.range n).map (fun i => l.getD i d) = l := by
  apply List.ext_getElem
  · simp [h]
  · intro i h1 h2
    simp at h1
    simp [List.getD_eq_getElem?_getD, List.getElem?_eq_getElem h2]

theorem in_window_iff (base nextseqnum acknum : Int) (hb1 : 0 ≤ base) (hb2 : base < SEQSPACE)
    (hn1 : 0 ≤ nextseqnum) (hn2 : nextseqnum < SEQSPACE) (ha1 : 0 ≤ acknum)
    (ha2 : acknum < SEQSPACE) :
    in_window base nextseqnum acknum = true ↔ inCircRange base nextseqnum acknum := by
  simp only [in_window, inCircRange, SEQSPACE, Bool.or_eq_true, Bool.and_eq_true,
    decide_eq_true_eq] at *
  omega

/-! ## The integrity codec on fresh packets -/

theorem iadd_zero_wrap (x : Int) : iadd (wrap32 x) 0 = wrap32 x := by
  have h := wrap32_range x
  unfold iadd
  rw [Int.add_zero]
  exact wrap32_of_range _ h.1 h.2

theorem foldl_iadd_zero (l : List Nat) (x : Int) :
    l.foldl (fun c _ => iadd c 0) (wrap32 x) = wrap32 x := by
  induction l with
  | nil => rfl
  | cons a t ih => rw [List.foldl_cons, iadd_zero_wrap, ih]

theorem getD_map_zero (n i : Nat) :
    ((List.range n).map (fun _ => (0 : Int))).getD i 0 = 0 := by
  rw [List.getD_eq_getElem?_getD]
  by_cases h : i < n
  · simp [h]
  · simp [h]

theorem ackpkt_not_corrupted (a : Int) : IsCorrupted (ackpkt a) = false := by
  have h : ComputeChecksum (ackpkt a) = (ackpkt a).checksum := by
    simp only [ComputeChecksum, ackpkt, addPayload, getD_map_zero]
    have h1 : iadd NOTINUSE a = wrap32 (a + NOTINUSE) := by
      unfold iadd
      rw [Int.add_comm]
    rw [h1, foldl_iadd_zero]
    rfl
  simp [IsCorrupted, h]

theorem checksum_ok_iff (p : Pkt) :
    addPayload (iadd p.seqnum p.acknum) p.payload = p.checksum ↔ IsCorrupted p = false := by
  simp only [IsCorrupted, ComputeChecksum]
  constructor
  · intro h
    simp [h]
  · intro h
    by_contra hne
    have : ¬ p.checksum = addPayload (iadd p.seqnum p.acknum) p.payload := fun e => hne e.symm
    simp [this] at h

/-- Claim C5: every packet that `A_output` hands to the channel, and every
acknowledgment that `B_input` hands to the channel (for an uncorrupted and for
a corrupted arrival alike), passes the integrity check: `IsCorrupted` is
false on it, whatever the message and the state. -/
theorem C5_fresh_packets_pass_check (s : Sender) (m : Msg) (fuel : Nat) (r : Receiver)
    (packet : Pkt) :
    (∀ s2 evs e p, A_output s m = .ok (s2, evs) → Event.tolayer3 e p ∈ evs →
        IsCorrupted p = false) ∧
    (∀ r2 evs e p, B_input fuel r packet = .ok (r2, evs) → Event.tolayer3 e p ∈ evs →
        IsCorrupted p = false) := by
  constructor
  · intro s2 evs e p h hmem
    unfold A_output at h
    split at h
    · simp only [Res.ok.injEq, Prod.mk.injEq] at h
      rw [← h.2] at hmem
      simp at hmem
    · split at h
      · simp only [Res.ok.injEq, Prod.mk.injEq] at h
        rw [← h.2] at hmem
        have hp : p = { seqnum := s.nextseqnum, acknum := -1,
                        payload := (List.range 20).map (fun i => m.data.getD i 0),
                        checksum := addPayload (iadd s.nextseqnum (-1))
                          ((List.range 20).map (fun i => m.data.getD i 0)) } := by
          rcases List.mem_cons.1 hmem with h1 | h1
          · simp only [Event.tolayer3.injEq] at h1
            exact h1.2
          · split at h1 <;> simp at h1
        rw [hp]
        simp [IsCorrupted, ComputeChecksum]
      · simp at h
  · intro r2 evs e p h hmem
    have hsweep : ∀ f (q q2 : Receiver) (es : List Event), deliverSweep f q = .ok (q2, es) →
        ∀ e p, Event.tolayer3 e p ∉ es := by
      intro f
      induction f with
      | zero =>
        intro q q2 es hq
        simp [deliverSweep] at hq
      | succ f ih =>
        intro q q2 es hq e p
        unfold deliverSweep at hq
        split at hq
        · split at hq
          · split at hq
            · rename_i q3 es3 hq3
              simp only [Res.ok.injEq, Prod.mk.injEq] at hq
              rw [← hq.2]
              have := ih _ _ _ hq3 e p
              simp [this]
            · simp at hq
            · simp at hq
          · simp only [Res.ok.injEq, Prod.mk.injEq] at hq
            rw [← hq.2]
            simp
        · simp at hq
    by_cases hc : addPayload (iadd packet.seqnum packet.acknum) packet.payload = packet.checksum
    · by_cases hb : inBounds packet.seqnum = true
      · simp only [B_input, hc, hb, ne_eq, not_true_eq_false, Bool.not_true, if_false,
          Bool.false_eq_true] at h
        cases hq3 : deliverSweep fuel (bufferPacket r packet) with
        | ok a =>
          obtain ⟨q3, es3⟩ := a
          rw [hq3] at h
          simp only [Res.ok.injEq, Prod.mk.injEq] at h
          rw [← h.2] at hmem
          rcases List.mem_cons.1 hmem with h1 | h1
          · simp only [Event.tolayer3.injEq] at h1
            rw [h1.2]
            exact ackpkt_not_corrupted _
          · exact absurd h1 (hsweep _ _ _ _ hq3 e p)
        | outOfBounds =>
          rw [hq3] at h
          simp at h
        | outOfFuel =>
          rw [hq3] at h
          simp at h
      · simp [B_input, hc, hb] at h
    · simp only [B_input, hc, ne_eq, not_false_eq_true, if_true, Res.ok.injEq,
        Prod.mk.injEq] at h
      rw [← h.2] at hmem
      simp only [List.mem_singleton, Event.tolayer3.injEq] at hmem
      rw [hmem.2]
      exact ackpkt_not_corrupted _

/-! ## The sender: window membership, submit and discarded acknowledgments -/

/-- Claim C7: for `base`, `nextseqnum` and `acknum` in `[0, SEQSPACE)` the
`in_window` expression of `A_input` is true exactly when `acknum` lies in the
circular range `[base, nextseqnum)`, that is when
`(acknum - base) mod SEQSPACE < (nextseqnum - base) mod SEQSPACE`. -/
theorem C7_in_window_is_circular_range (base nextseqnum acknum : Int)
    (hb : 0 ≤ base ∧ base < SEQSPACE) (hn : 0 ≤ nextseqnum ∧ nextseqnum < SEQSPACE)
    (ha : 0 ≤ acknum ∧ acknum < SEQSPACE) :
    in_window base nextseqnum acknum = true ↔
      (acknum - base) % SEQSPACE < (nextseqnum - base) % SEQSPACE :=
  in_window_iff base nextseqnum acknum hb.1 hb.2 hn.1 hn.2 ha.1 ha.2

/-- Claim C8: when `base` and `nextseqnum` are in `[0, SEQSPACE)` and the
window holds `WINDOWSIZE` packets or more, `A_output` returns with `base`,
`nextseqnum`, `acked` and `window` unchanged, and makes no call to the channel
or the timer. -/
theorem C8_window_full_rejection (s : Sender) (m : Msg)
    (hb : 0 ≤ s.base ∧ s.base < SEQSPACE) (hn : 0 ≤ s.nextseqnum ∧ s.nextseqnum < SEQSPACE)
    (hfull : (s.nextseqnum - s.base) % SEQSPACE ≥ WINDOWSIZE) :
    ∃ s2, A_output s m = .ok (s2, []) ∧ s2.base = s.base ∧ s2.nextseqnum = s.nextseqnum ∧
      s2.acked = s.acked ∧ s2.window = s.window := by
  refine ⟨{ s with window_full := iadd s.window_full 1 }, ?_, rfl, rfl, rfl, rfl⟩
  unfold A_output
  rw [windowCount_eq s.base s.nextseqnum hb.1 hb.2 hn.1 hn.2, if_pos hfull]

/-- Claim C9: when `base` and `nextseqnum` are in `[0, SEQSPACE)` and the
window holds fewer than `WINDOWSIZE` packets, `A_output` on a message `m`
sends exactly one packet `p`, with `p.seqnum` the old `nextseqnum`,
`p.acknum = -1` and the 20 bytes of `m` as payload; `p` is stored at
`window[nextseqnum]`, `acked[nextseqnum]` is false, the timer is started
exactly when `base` equals the old `nextseqnum`, `nextseqnum` becomes
`(nextseqnum + 1) mod SEQSPACE`, and `base` and every other slot of `window`
and `acked` are unchanged. -/
theorem C9_accepted_submit (s : Sender) (m : Msg) (hs : s.WF) (hm : m.WF)
    (hb : 0 ≤ s.base ∧ s.base < SEQSPACE) (hn : 0 ≤ s.nextseqnum ∧ s.nextseqnum < SEQSPACE)
    (hroom : (s.nextseqnum - s.base) % SEQSPACE < WINDOWSIZE) :
    ∃ s2 p,
      A_output s m = .ok (s2, Event.tolayer3 0 p ::
        (if s.base = s.nextseqnum then [Event.starttimer 0 TIMEOUT] else [])) ∧
      p.seqnum = s.nextseqnum ∧ p.acknum = -1 ∧ p.payload = m.data ∧
      s2.window.getD s.nextseqnum.toNat Pkt.zero = p ∧
      s2.acked.getD s.nextseqnum.toNat true = false ∧
      s2.nextseqnum = (s.nextseqnum + 1) % SEQSPACE ∧
      s2.base = s.base ∧
      s2.window.length = s.window.length ∧ s2.acked.length = s.acked.length ∧
      (∀ i : Nat, i ≠ s.nextseqnum.toNat →
        s2.window[i]? = s.window[i]? ∧ s2.acked[i]? = s.acked[i]?) := by
  have hlt : s.nextseqnum.toNat < 12 := by
    have := hn.2
    simp only [SEQSPACE] at this
    omega
  have hnot : ¬ imod (isub (iadd s.nextseqnum SEQSPACE) s.base) SEQSPACE ≥ WINDOWSIZE := by
    rw [windowCount_eq s.base s.nextseqnum hb.1 hb.2 hn.1 hn.2]
    omega
  have hin : inBounds s.nextseqnum = true := (inBounds_iff _).2 hn
  have hpay : (List.range 20).map (fun i => m.data.getD i 0) = m.data :=
    map_getD_range m.data 0 20 hm
  refine ⟨{ s with
              window := s.window.set s.nextseqnum.toNat
                { seqnum := s.nextseqnum, acknum := -1,
                  payload := (List.range 20).map (fun i => m.data.getD i 0),
                  checksum := addPayload (iadd s.nextseqnum (-1))
                    ((List.range 20).map (fun i => m.data.getD i 0)) }
              acked := s.acked.set s.nextseqnum.toNat false
              nextseqnum := imod (iadd s.nextseqnum 1) SEQSPACE },
          { seqnum := s.nextseqnum, acknum := -1,
            payload := (List.range 20).map (fun i => m.data.getD i 0),
            checksum := addPayload (iadd s.nextseqnum (-1))
              ((List.range 20).map (fun i => m.data.getD i 0)) }, ?_, ?_⟩
  · unfold A_output
    rw [if_neg hnot]
    simp only [hin, if_true]
  · refine ⟨rfl, rfl, hpay, ?_, ?_, ?_, rfl, ?_, ?_, ?_⟩
    · exact getD_set_eq _ _ _ _ (by rw [hs.1]; exact hlt)
    · exact getD_set_eq _ _ _ _ (by rw [hs.2]; exact hlt)
    · exact succMod_eq _ hn.1 hn.2
    · simp
    · simp
    · intro i hi
      exact ⟨List.getElem?_set_ne (Ne.symm hi), List.getElem?_set_ne (Ne.symm hi)⟩

/-- Claim C10: when `base`, `nextseqnum` and the packet's `acknum` are in
`[0, SEQSPACE)`, an acknowledgment that is corrupted, or whose `acknum` is
outside the circular range `[base, nextseqnum)`, or whose `acked` flag is
already set, makes `A_input` return with the whole sender state unchanged and
without any call to the channel or the timer. -/
theorem C10_discarded_ack_is_noop (fuel : Nat) (s : Sender) (packet : Pkt)
    (hb : 0 ≤ s.base ∧ s.base < SEQSPACE) (hn : 0 ≤ s.nextseqnum ∧ s.nextseqnum < SEQSPACE)
    (ha : 0 ≤ packet.acknum ∧ packet.acknum < SEQSPACE)
    (hdrop : IsCorrupted packet = true ∨
      ¬ inCircRange s.base s.nextseqnum packet.acknum ∨
      s.acked.getD packet.acknum.toNat false = true) :
    A_input fuel s packet = .ok (s, []) := by
  by_cases hc : addPayload (iadd packet.seqnum packet.acknum) packet.payload = packet.checksum
  · by_cases hw : in_window s.base s.nextseqnum packet.acknum = true
    · have hin : inBounds packet.acknum = true := (inBounds_iff _).2 ha
      have hflag : s.acked.getD packet.acknum.toNat false = true := by
        rcases hdrop with h | h | h
        · rw [(checksum_ok_iff packet).1 hc] at h
          exact absurd h (by decide)
        · exact absurd ((in_window_iff _ _ _ hb.1 hb.2 hn.1 hn.2 ha.1 ha.2).1 hw) h
        · exact h
      simp only [A_input, hc, hw, hin, hflag, ne_eq, not_true_eq_false, Bool.not_true,
        if_false, if_true, Bool.false_eq_true]
    · simp only [A_input, hc, hw, ne_eq, not_true_eq_false, if_false, Bool.not_eq_true,
        Bool.not_eq_true', Bool.not_eq_false] at *
      simp [hw]
  · simp only [A_input, hc, ne_eq, not_false_eq_true, if_true]

/-! ## The integrity codec detects a change of one field -/

theorem foldl_getD_range (f : Int → Int → Int) (l : List Int) (n : Nat) (hn : n ≤ l.length)
    (c : Int) :
    (List.range n).foldl (fun c i => f c (l.getD i 0)) c = (l.take n).foldl f c := by
  induction n with
  | zero => simp
  | succ k ih =>
    have hk : k < l.length := hn
    rw [List.range_succ, List.foldl_append, ih (Nat.le_of_lt hk), List.take_succ,
      List.foldl_append]
    simp [List.getD_eq_getElem?_getD, List.getElem?_eq_getElem hk]

theorem addPayload_eq_foldl (c : Int) (l : List Int) (h : l.length = 20) :
    addPayload c l = l.foldl iadd c := by
  unfold addPayload
  rw [foldl_getD_range iadd l 20 (by omega) c, ← h, List.take_length]

theorem foldl_iadd_modEq (l : List Int) (c : Int) :
    (l.foldl iadd c) % 4294967296 = (c + l.sum) % 4294967296 := by
  induction l generalizing c with
  | nil => simp
  | cons a t ih =>
    rw [List.foldl_cons, ih, List.sum_cons]
    have h := wrap32_modEq (c + a)
    unfold iadd
    omega

theorem foldl_iadd_range (l : List Int) (c : Int)
    (hc : -2147483648 ≤ c ∧ c < 2147483648) :
    -2147483648 ≤ l.foldl iadd c ∧ l.foldl iadd c < 2147483648 := by
  induction l generalizing c with
  | nil => exact hc
  | cons a t ih =>
    rw [List.foldl_cons]
    exact ih _ (wrap32_range _)

theorem sum_set (l : List Int) (j : Nat) (v : Int) (hj : j < l.length) :
    (l.set j v).sum = l.sum - l.getD j 0 + v := by
  induction l generalizing j with
  | nil => simp at hj
  | cons a t ih =>
    cases j with
    | zero =>
      simp only [List.set_cons_zero, List.sum_cons, List.getD_cons_zero]
      omega
    | succ k =>
      have hk : k < t.length := by simpa using hj
      simp only [List.set_cons_succ, List.sum_cons, List.getD_cons_succ, ih k hk]
      omega

theorem ComputeChecksum_modEq (p : Pkt) (h : p.payload.length = 20) :
    ComputeChecksum p % 4294967296 = (p.seqnum + p.acknum + p.payload.sum) % 4294967296 := by
  unfold ComputeChecksum
  simp only
  rw [addPayload_eq_foldl _ _ h, foldl_iadd_modEq]
  have h := wrap32_modEq (p.seqnum + p.acknum)
  unfold iadd
  omega

theorem ComputeChecksum_range (p : Pkt) (h : p.payload.length = 20) :
    -2147483648 ≤ ComputeChecksum p ∧ ComputeChecksum p < 2147483648 := by
  unfold ComputeChecksum
  simp only
  rw [addPayload_eq_foldl _ _ h]
  exact foldl_iadd_range _ _ (wrap32_range _)

theorem getD_mem_or_default (l : List Int) (j : Nat) (hj : j < l.length) :
    l.getD j 0 ∈ l := by
  rw [List.getD_eq_getElem?_getD, List.getElem?_eq_getElem hj]
  exact List.getElem_mem hj

/-- Claim C6: with `int` arithmetic taken modulo 2^32, if a well-formed
packet `p` passes the integrity check and `p2` differs from it in exactly
one of `seqnum`, `acknum` or one payload byte (the new value different from
the old, the checksum field the same), then `IsCorrupted p2` is true. -/
theorem C6_single_field_change_detected (p p2 : Pkt) (hp : p.WF) (hp2 : p2.WF)
    (hgood : IsCorrupted p = false) (hsum : p2.checksum = p.checksum)
    (hdiff :
      (p2.seqnum ≠ p.seqnum ∧ p2.acknum = p.acknum ∧ p2.payload = p.payload) ∨
      (p2.seqnum = p.seqnum ∧ p2.acknum ≠ p.acknum ∧ p2.payload = p.payload) ∨
      (p2.seqnum = p.seqnum ∧ p2.acknum = p.acknum ∧
        ∃ j v, j < 20 ∧ v ≠ p.payload.getD j 0 ∧ p2.payload = p.payload.set j v)) :
    IsCorrupted p2 = true := by
  obtain ⟨hs1, hs2, ha1, ha2, hlen, hbytes⟩ := hp
  obtain ⟨hs1', hs2', ha1', ha2', hlen', hbytes'⟩ := hp2
  have hc : p.checksum = ComputeChecksum p := by
    by_contra hne
    simp [IsCorrupted, hne] at hgood
  have hm := ComputeChecksum_modEq p hlen
  have hm' := ComputeChecksum_modEq p2 hlen'
  have hr := ComputeChecksum_range p hlen
  have hr' := ComputeChecksum_range p2 hlen'
  have hne : p2.checksum ≠ ComputeChecksum p2 := by
    intro heq
    have hcc : ComputeChecksum p2 = ComputeChecksum p := by rw [← heq, hsum, hc]
    rw [hcc] at hm'
    rcases hdiff with ⟨h1, h2, h3⟩ | ⟨h1, h2, h3⟩ | ⟨h1, h2, j, v, hj, hv, h3⟩
    · rw [h2, h3] at hm'
      omega
    · rw [h1, h3] at hm'
      omega
    · have hjl : j < p.payload.length := by omega
      have hold := hbytes _ (getD_mem_or_default p.payload j hjl)
      have hnew : -128 ≤ v ∧ v ≤ 255 := by
        apply hbytes'
        rw [h3]
        have hget : (p.payload.set j v).getD j 0 = v := getD_set_eq _ _ _ _ hjl
        have hmem := getD_mem_or_default (p.payload.set j v) j (by simpa using hjl)
        rw [hget] at hmem
        exact hmem
      rw [h1, h2, h3, sum_set _ _ _ hjl] at hm'
      omega
  simp [IsCorrupted, hne]

/-! ## The sender: case analysis of the calls -/

theorem A_output_cases (s : Sender) (m : Msg) (s2 : Sender) (evs : List Event)
    (h : A_output s m = .ok (s2, evs)) :
    (imod (isub (iadd s.nextseqnum SEQSPACE) s.base) SEQSPACE ≥ WINDOWSIZE ∧
      s2 = { s with window_full := iadd s.window_full 1 } ∧ evs = []) ∨
    (¬ imod (isub (iadd s.nextseqnum SEQSPACE) s.base) SEQSPACE ≥ WINDOWSIZE ∧
      inBounds s.nextseqnum = true ∧
      ∃ pkt : Pkt,
        s2 = { s with
                window := s.window.set s.nextseqnum.toNat pkt
                acked := s.acked.set s.nextseqnum.toNat false
                nextseqnum := imod (iadd s.nextseqnum 1) SEQSPACE } ∧
        evs = Event.tolayer3 0 pkt ::
          (if s.base = s.nextseqnum then [Event.starttimer 0 TIMEOUT] else [])) := by
  by_cases hfull : imod (isub (iadd s.nextseqnum SEQSPACE) s.base) SEQSPACE ≥ WINDOWSIZE
  · left
    simp only [A_output, hfull, if_true, Res.ok.injEq, Prod.mk.injEq] at h
    exact ⟨hfull, h.1.symm, h.2.symm⟩
  · right
    by_cases hin : inBounds s.nextseqnum = true
    · simp only [A_output, hfull, hin, if_true, if_false, Res.ok.injEq, Prod.mk.injEq] at h
      exact ⟨hfull, hin, _, h.1.symm, h.2.symm⟩
    · simp [A_output, hfull, hin] at h

theorem A_input_cases (fuel : Nat) (s : Sender) (p : Pkt) (s2 : Sender) (evs : List Event)
    (h : A_input fuel s p = .ok (s2, evs)) :
    (s2 = s ∧ evs = []) ∨
    (IsCorrupted p = false ∧ in_window s.base s.nextseqnum p.acknum = true ∧
      inBounds p.acknum = true ∧ s.acked.getD p.acknum.toNat false = false ∧
      ∃ b : Int, slideBase fuel (s.acked.set p.acknum.toNat true) s.base = .ok b ∧
        s2 = { s with
                acked := s.acked.set p.acknum.toNat true
                new_ACKs := iadd s.new_ACKs 1
                base := b } ∧
        evs = if b = s.nextseqnum then [Event.stoptimer 0]
              else [Event.stoptimer 0, Event.starttimer 0 TIMEOUT]) := by
  by_cases hc : addPayload (iadd p.seqnum p.acknum) p.payload = p.checksum
  · by_cases hw : in_window s.base s.nextseqnum p.acknum = true
    · by_cases hin : inBounds p.acknum = true
      · by_cases hf : s.acked.getD p.acknum.toNat false = true
        · left
          simp only [A_input, hc, hw, hin, hf, ne_eq, not_true_eq_false, Bool.not_true,
            if_false, if_true, Bool.false_eq_true, Res.ok.injEq, Prod.mk.injEq] at h
          exact ⟨h.1.symm, h.2.symm⟩
        · right
          simp only [A_input, hc, hw, hin, hf, ne_eq, not_true_eq_false, Bool.not_true,
            if_false, Bool.false_eq_true] at h
          refine ⟨(checksum_ok_iff p).1 hc, hw, hin, by simpa using hf, ?_⟩
          cases hsl : slideBase fuel (s.acked.set p.acknum.toNat true) s.base with
          | ok b =>
            rw [hsl] at h
            refine ⟨b, rfl, ?_⟩
            by_cases hbn : b = s.nextseqnum
            · simp only [hbn, if_true, Res.ok.injEq, Prod.mk.injEq] at h
              simp only [hbn, if_true]
              exact ⟨h.1.symm, h.2.symm⟩
            · simp only [hbn, if_false, Res.ok.injEq, Prod.mk.injEq] at h
              simp only [hbn, if_false]
              exact ⟨h.1.symm, h.2.symm⟩
          | outOfBounds =>
            rw [hsl] at h
            simp at h
          | outOfFuel =>
            rw [hsl] at h
            simp at h
      · simp [A_input, hc, hw, hin] at h
    · left
      simp only [A_input, hc, hw, ne_eq, not_true_eq_false, if_false, Bool.not_eq_true,
        Bool.not_eq_true', Bool.not_eq_false] at h hw
      simp only [hw, Bool.not_false, if_true, Res.ok.injEq, Prod.mk.injEq] at h
      exact ⟨h.1.symm, h.2.symm⟩
  · left
    simp only [A_input, hc, ne_eq, not_false_eq_true, if_true, Res.ok.injEq,
      Prod.mk.injEq] at h
    exact ⟨h.1.symm, h.2.symm⟩

theorem A_timerinterrupt_cases (s s2 : Sender) (evs : List Event)
    (h : A_timerinterrupt s = .ok (s2, evs)) :
    inBounds s.base = true ∧ s2 = { s with packets_resent := iadd s.packets_resent 1 } ∧
      evs = [Event.starttimer 0 TIMEOUT,
             Event.tolayer3 0 (s.window.getD s.base.toNat Pkt.zero)] := by
  by_cases hin : inBounds s.base = true
  · simp only [A_timerinterrupt, hin, if_true, Res.ok.injEq, Prod.mk.injEq] at h
    exact ⟨hin, h.1.symm, h.2.symm⟩
  · simp [A_timerinterrupt, hin] at h

/-- What a returning base slide has done: it stepped over `k` set flags and
stopped at a clear one. -/
theorem slideBase_ok (fuel : Nat) (acked : List Bool) (b b2 : Int)
    (hb : 0 ≤ b ∧ b < 12) (h : slideBase fuel acked b = .ok b2) :
    ∃ k : Nat, k < fuel ∧ b2 = (b + k) % 12 ∧
      (∀ j : Nat, j < k → acked.getD ((b + j) % 12).toNat false = true) ∧
      acked.getD b2.toNat false = false := by
  induction fuel generalizing b with
  | zero => simp [slideBase] at h
  | succ f ih =>
    have hin : inBounds b = true := (inBounds_iff _).2 (by simp only [SEQSPACE]; exact hb)
    by_cases hf : acked.getD b.toNat false = true
    · simp only [slideBase, hin, hf, if_true] at h
      rw [succMod_eq b hb.1 (by simp only [SEQSPACE]; exact hb.2)] at h
      simp only [SEQSPACE] at h
      obtain ⟨k, hk, hb2, hall, hstop⟩ := ih ((b + 1) % 12) (by omega) h
      refine ⟨k + 1, by omega, by omega, ?_, hstop⟩
      intro j hj
      cases j with
      | zero =>
        have : (b + ((0 : Nat) : Int)) % 12 = b := by omega
        rw [this]
        exact hf
      | succ j2 =>
        have := hall j2 (by omega)
        have he : (b + ((j2 + 1 : Nat) : Int)) % 12 = ((b + 1) % 12 + (j2 : Int)) % 12 := by
          omega
        rw [he]
        exact this
    · simp only [slideBase, hin, hf, if_true, if_false, Bool.false_eq_true, Res.ok.injEq] at h
      refine ⟨0, by omega, by omega, ?_, ?_⟩
      · intro j hj
        omega
      · rw [← h]
        simpa using hf

/-! ## The sender: the window bound invariant -/

theorem getD_set_true_mono (l : List Bool) (a i : Nat) (h : l.getD i false = true) :
    (l.set a true).getD i false = true := by
  by_cases hai : a = i
  · subst hai
    have hlt : a < l.length := by
      by_contra hge
      rw [List.getD_eq_getElem?_getD, List.getElem?_eq_none (by omega)] at h
      simp at h
    exact getD_set_eq _ _ _ _ hlt
  · rw [getD_set_ne _ _ _ _ _ hai]
    exact h

theorem SInv_init (s0 : Sender) : SInv (A_init s0) := by
  refine ⟨by simp [A_init, SEQSPACE], by simp [A_init], by simp [A_init], by simp [A_init],
    by simp [A_init], by simp [A_init], Or.inl ⟨by simp [A_init], ?_, ?_⟩⟩
  · intro i hi
    simp only [A_init] at hi
    omega
  · intro i _ hi
    show (List.replicate 12 false).getD i false = false
    rw [List.getD_eq_getElem?_getD, List.getElem?_replicate]
    simp [hi]

theorem SInv_output (s : Sender) (m : Msg) (s2 : Sender) (evs : List Event) (hinv : SInv s)
    (h : A_output s m = .ok (s2, evs)) : SInv s2 := by
  obtain ⟨hlen, hb1, hb2, hn1, hn2, hsz, hph⟩ := hinv
  rcases A_output_cases s m s2 evs h with ⟨_, rfl, _⟩ | ⟨hnf, _, pkt, rfl, _⟩
  · exact ⟨hlen, hb1, hb2, hn1, hn2, hsz, hph⟩
  · rw [windowCount_eq s.base s.nextseqnum hb1 hb2 hn1 hn2] at hnf
    simp only [SEQSPACE, WINDOWSIZE] at hnf
    have hnx : imod (iadd s.nextseqnum 1) SEQSPACE = (s.nextseqnum + 1) % 12 :=
      succMod_eq _ hn1 hn2
    unfold SInv
    dsimp only
    rw [hnx]
    refine ⟨by simpa using hlen, hb1, hb2, by omega, by omega, by omega, ?_⟩
    rcases hph with ⟨hle, hlow, hhigh⟩ | hout
    · by_cases hwrap : s.nextseqnum = 11
      · right
        intro i hi hnot
        rw [getD_set_ne _ _ _ _ _ (by omega)]
        exact hlow i (by omega)
      · left
        refine ⟨by omega, ?_, ?_⟩
        · intro i hi
          rw [getD_set_ne _ _ _ _ _ (by omega)]
          exact hlow i hi
        · intro i h1 h2
          rw [getD_set_ne _ _ _ _ _ (by omega)]
          exact hhigh i (by omega) h2
    · right
      intro i hi hnot
      rw [getD_set_ne _ _ _ _ _ (by omega)]
      exact hout i hi (by omega)

theorem SInv_input (fuel : Nat) (s : Sender) (p : Pkt) (s2 : Sender) (evs : List Event)
    (hinv : SInv s) (h : A_input fuel s p = .ok (s2, evs)) : SInv s2 := by
  rcases A_input_cases fuel s p s2 evs h with ⟨rfl, _⟩ | ⟨_, hw, hin, hf, b, hsl, rfl, _⟩
  · exact hinv
  · obtain ⟨hlen, hb1, hb2, hn1, hn2, hsz, hph⟩ := hinv
    have ha := (inBounds_iff _).1 hin
    have hcirc := (in_window_iff _ _ _ hb1 hb2 hn1 hn2 ha.1 ha.2).1 hw
    simp only [inCircRange, SEQSPACE] at hcirc ha
    obtain ⟨k, _, hbk, hall, hstop⟩ := slideBase_ok fuel _ s.base b ⟨hb1, hb2⟩ hsl
    unfold SInv
    dsimp only
    rcases hph with ⟨hle, hlow, hhigh⟩ | hout
    · have hnext : (s.acked.set p.acknum.toNat true).getD s.nextseqnum.toNat false = false := by
        rw [getD_set_ne _ _ _ _ _ (by omega)]
        exact hhigh s.nextseqnum.toNat (by omega) (by omega)
      have hk : s.base + k ≤ s.nextseqnum := by
        by_contra hgt
        have hj := hall (s.nextseqnum - s.base).toNat (by omega)
        have e : (s.base + ((s.nextseqnum - s.base).toNat : Int)) % 12 = s.nextseqnum := by
          omega
        rw [e, hnext] at hj
        exact absurd hj (by decide)
      refine ⟨by simpa using hlen, by omega, by omega, hn1, hn2, by omega, Or.inl ⟨by omega, ?_, ?_⟩⟩
      · intro i hi
        by_cases hlt : (i : Int) < s.base
        · exact getD_set_true_mono _ _ _ (hlow i hlt)
        · have hj := hall (i - s.base.toNat) (by omega)
          have e : ((s.base + ((i - s.base.toNat : Nat) : Int)) % 12).toNat = i := by omega
          rw [e] at hj
          exact hj
      · intro i h1 h2
        rw [getD_set_ne _ _ _ _ _ (by omega)]
        exact hhigh i h1 h2
    · have hbr : 0 ≤ b ∧ b < 12 := by omega
      have hbin : (b - s.base) % 12 < (s.nextseqnum - s.base) % 12 := by
        by_contra hn
        have ht := getD_set_true_mono _ p.acknum.toNat _ (hout b.toNat (by omega) (by omega))
        rw [hstop] at ht
        exact absurd ht (by decide)
      refine ⟨by simpa using hlen, by omega, by omega, hn1, hn2, by omega, Or.inr ?_⟩
      intro i hi hnot
      by_cases hold : ((i : Int) - s.base) % 12 < (s.nextseqnum - s.base) % 12
      · obtain ⟨j, hj0⟩ : ∃ j : Nat, (j : Int) = ((i : Int) - s.base) % 12 :=
          ⟨(((i : Int) - s.base) % 12).toNat, by omega⟩
        have hjk : j < k := by omega
        have hj := hall j hjk
        have e : (s.base + (j : Int)) % 12 = (i : Int) := by
          clear hall hjk hbk hbin hnot hold hcirc hsz
          omega
        rw [e, Int.toNat_ofNat] at hj
        exact hj
      · exact getD_set_true_mono _ _ _ (hout i hi hold)

theorem SInv_timer (s s2 : Sender) (evs : List Event) (hinv : SInv s)
    (h : A_timerinterrupt s = .ok (s2, evs)) : SInv s2 := by
  obtain ⟨_, rfl, _⟩ := A_timerinterrupt_cases s s2 evs h
  exact hinv

theorem SReach_SInv (s : Sender) (h : SReach s) : SInv s := by
  induction h with
  | init s0 _ => exact SInv_init s0
  | output s m s2 evs _ hstep ih => exact SInv_output s m s2 evs ih hstep
  | input fuel s p s2 evs _ _ _ hstep ih => exact SInv_input fuel s p s2 evs ih hstep
  | timer s s2 evs _ hstep ih => exact SInv_timer s s2 evs ih hstep

/-- Claim C3: in every sender state reachable from `A_init` by calls of
`A_output`, `A_input` (any packet with `acknum` in `[0, SEQSPACE)`, corrupted
or not) and `A_timerinterrupt`, `base` and `nextseqnum` are in
`[0, SEQSPACE)` and `(nextseqnum - base) mod SEQSPACE ≤ WINDOWSIZE`. -/
theorem C3_window_bound_invariant (s : Sender) (h : SReach s) :
    0 ≤ s.base ∧ s.base < SEQSPACE ∧ 0 ≤ s.nextseqnum ∧ s.nextseqnum < SEQSPACE ∧
      (s.nextseqnum - s.base) % SEQSPACE ≤ WINDOWSIZE := by
  obtain ⟨_, hb1, hb2, hn1, hn2, hsz, _⟩ := SReach_SInv s h
  exact ⟨hb1, hb2, hn1, hn2, hsz⟩

/-! ## The base slide on a full circle of set flags -/

theorem A_input_new_ack (fuel : Nat) (s : Sender) (p : Pkt) (hc : IsCorrupted p = false)
    (hw : in_window s.base s.nextseqnum p.acknum = true) (hin : inBounds p.acknum = true)
    (hf : s.acked.getD p.acknum.toNat false = false) :
    A_input fuel s p =
      match slideBase fuel (s.acked.set p.acknum.toNat true) s.base with
      | .ok base =>
        if base = s.nextseqnum then
          .ok ({ s with acked := s.acked.set p.acknum.toNat true,
                        new_ACKs := iadd s.new_ACKs 1, base := base }, [Event.stoptimer 0])
        else
          .ok ({ s with acked := s.acked.set p.acknum.toNat true,
                        new_ACKs := iadd s.new_ACKs 1, base := base },
               [Event.stoptimer 0, Event.starttimer 0 TIMEOUT])
      | .outOfBounds => .outOfBounds
      | .outOfFuel => .outOfFuel := by
  have hc2 := (checksum_ok_iff p).2 hc
  simp only [A_input, hc2, hw, hin, hf, ne_eq, not_true_eq_false, Bool.not_true, if_false,
    Bool.false_eq_true]

/-- When every flag is set the base slide uses up any fuel: the loop does not
end. -/
theorem slideBase_all_set (fuel : Nat) (acked : List Bool) (b : Int)
    (hall : ∀ i : Nat, i < 12 → acked.getD i false = true) (hb : 0 ≤ b ∧ b < 12) :
    slideBase fuel acked b = .outOfFuel := by
  induction fuel generalizing b with
  | zero => rfl
  | succ f ih =>
    have hin : inBounds b = true := (inBounds_iff _).2 (by simp only [SEQSPACE]; exact hb)
    have hf : acked.getD b.toNat false = true := hall b.toNat (by omega)
    simp only [slideBase, hin, hf, if_true]
    rw [succMod_eq b hb.1 (by simp only [SEQSPACE]; exact hb.2)]
    simp only [SEQSPACE]
    exact ih _ (by omega)

theorem ackRounds_reach (fuel : Nat) (m : Msg) (n : Nat) (s s2 : Sender) (hs : SReach s)
    (h : ackRounds fuel m n s = .ok s2) : SReach s2 := by
  induction n generalizing s with
  | zero =>
    rw [ackRounds] at h
    cases h
    exact hs
  | succ k ih =>
    rw [ackRounds] at h
    cases h1 : A_output s m with
    | ok x1 =>
      rw [h1] at h
      simp only [Res.bind] at h
      cases h2 : A_input fuel x1.1 (ackpkt s.nextseqnum) with
      | ok x2 =>
        rw [h2] at h
        simp only [Res.bind] at h
        have hinv := SReach_SInv s hs
        have hr1 : SReach x1.1 := SReach.output s m x1.1 x1.2 hs h1
        have hr3 : SReach x2.1 :=
          SReach.input fuel x1.1 (ackpkt s.nextseqnum) x2.1 x2.2 hr1 hinv.2.2.2.1
            (by simp only [SEQSPACE, ackpkt]; exact hinv.2.2.2.2.1) h2
        exact ih x2.1 hr3 h
      | outOfBounds =>
        rw [h2] at h
        simp [Res.bind] at h
      | outOfFuel =>
        rw [h2] at h
        simp [Res.bind] at h
    | outOfBounds =>
      rw [h1] at h
      simp [Res.bind] at h
    | outOfFuel =>
      rw [h1] at h
      simp [Res.bind] at h

set_option maxRecDepth 100000 in
theorem afterRounds_eleven :
    ackRounds 13 (msgOf 7) 11 (A_init Sender.boot) = .ok (afterRounds 11) := by
  decide

set_option maxRecDepth 100000 in
theorem lastSend_eq :
    A_output (afterRounds 11) (msgOf 7) =
      .ok (lastSend, [Event.tolayer3 0 (dataPkt 11 7), Event.starttimer 0 TIMEOUT]) := by
  decide

set_option maxRecDepth 100000 in
theorem lastSend_fields :
    lastSend.base = 11 ∧ lastSend.nextseqnum = 0 ∧
      lastSend.acked = List.replicate 11 true ++ [false] := by
  decide

/-- Claim C4, at its failing input.  From `A_init`, eleven rounds of
`A_output` and `A_input` of the matching acknowledgment, then a twelfth
`A_output`, reach a state with `base = 11`, `nextseqnum = 0` and
`acked[11]` clear.  The acknowledgment of packet 11 is then uncorrupted, in
the window and new, and `A_input` on it does not return, whatever the fuel:
all twelve `acked` flags are set and the base slide never ends. -/
theorem C4_base_slide_does_not_halt :
    ackRounds 13 (msgOf 7) 11 (A_init Sender.boot) = .ok (afterRounds 11) ∧
    A_output (afterRounds 11) (msgOf 7) =
      .ok (lastSend, [Event.tolayer3 0 (dataPkt 11 7), Event.starttimer 0 TIMEOUT]) ∧
    SReach lastSend ∧ lastSend.base = 11 ∧ lastSend.nextseqnum = 0 ∧
    IsCorrupted (ackpkt 11) = false ∧
    inCircRange lastSend.base lastSend.nextseqnum (ackpkt 11).acknum ∧
    lastSend.acked.getD 11 false = false ∧
    ∀ fuel, A_input fuel lastSend (ackpkt 11) = .outOfFuel := by
  have hreach : SReach lastSend :=
    SReach.output _ _ _ _
      (ackRounds_reach 13 (msgOf 7) 11 _ _ (SReach.init Sender.boot (by decide))
        afterRounds_eleven) lastSend_eq
  obtain ⟨hb, hn, hacked⟩ := lastSend_fields
  refine ⟨afterRounds_eleven, lastSend_eq, hreach, hb, hn, ackpkt_not_corrupted 11, ?_, ?_, ?_⟩
  · rw [hb, hn]
    decide
  · rw [hacked]
    decide
  · intro fuel
    rw [A_input_new_ack fuel lastSend (ackpkt 11) (ackpkt_not_corrupted 11)
      (by rw [hb, hn]; decide) (by decide) (by rw [hacked]; decide)]
    have hset : lastSend.acked.set (ackpkt 11).acknum.toNat true = List.replicate 12 true := by
      rw [hacked]
      decide
    rw [hset, hb, slideBase_all_set fuel _ 11 (by decide) (by decide)]

/-! ## The receiver on a retransmission of a delivered packet -/

set_option maxRecDepth 100000 in
/-- Claim C1, at its failing input.  From `B_init` the uncorrupted arrivals
0, 0, 1, 2, ..., 11 (packet 0 retransmitted once) make the receiver pass the
payload of packet 0 to `tolayer5` twice: once on its first arrival and once
more after packet 11, when `expected_seqnum` wraps to 0 and finds the flag
that the retransmission set. -/
theorem C1_retransmission_delivered_twice :
    (Res.events (runB 13 (B_init Receiver.boot) dupArrivals)).map delivered =
      some (([0, 1, 2, 3, 4, 5, 6, 7, 8, 9, 10, 11, 0] : List Int).map
        (fun i => List.replicate 20 i)) ∧
    dupArrivals.all (fun p => !IsCorrupted p) = true ∧
    dupArrivals.map Pkt.seqnum = [0, 0, 1, 2, 3, 4, 5, 6, 7, 8, 9, 10, 11] := by
  decide

/-! ## Instances of the theorems at concrete inputs -/

set_option maxRecDepth 100000 in
theorem firstSend_eq :
    A_output (A_init Sender.boot) (msgOf 7) =
      .ok (firstSend, [Event.tolayer3 0 (dataPkt 0 7), Event.starttimer 0 TIMEOUT]) := by
  decide

set_option maxRecDepth 100000 in
theorem firstRecv_eq :
    B_input 13 (B_init Receiver.boot) (dataPkt 0 7) =
      .ok (firstRecv, [Event.tolayer3 B (ackpkt 0), Event.tolayer5 B (List.replicate 20 7)]) := by
  decide

set_option maxRecDepth 100000 in
theorem afterRounds_three :
    ackRounds 13 (msgOf 7) 3 (A_init Sender.boot) = .ok (afterRounds 3) := by
  decide

theorem C3_window_bound_invariant_witness :
    SReach (afterRounds 3) ∧
      (0 ≤ (afterRounds 3).base ∧ (afterRounds 3).base < SEQSPACE ∧
        0 ≤ (afterRounds 3).nextseqnum ∧ (afterRounds 3).nextseqnum < SEQSPACE ∧
        ((afterRounds 3).nextseqnum - (afterRounds 3).base) % SEQSPACE ≤ WINDOWSIZE) :=
  have h : SReach (afterRounds 3) :=
    ackRounds_reach 13 (msgOf 7) 3 _ _ (SReach.init Sender.boot (by decide)) afterRounds_three
  ⟨h, C3_window_bound_invariant (afterRounds 3) h⟩

theorem C5_fresh_packets_pass_check_witness :
    IsCorrupted (dataPkt 0 7) = false ∧ IsCorrupted (ackpkt 0) = false :=
  ⟨(C5_fresh_packets_pass_check (A_init Sender.boot) (msgOf 7) 13 (B_init Receiver.boot)
      (dataPkt 0 7)).1 firstSend _ 0 (dataPkt 0 7) firstSend_eq (List.mem_cons_self _ _),
   (C5_fresh_packets_pass_check (A_init Sender.boot) (msgOf 7) 13 (B_init Receiver.boot)
      (dataPkt 0 7)).2 firstRecv _ B (ackpkt 0) firstRecv_eq (List.mem_cons_self _ _)⟩

set_option maxRecDepth 100000 in
theorem C6_single_field_change_detected_witness :
    IsCorrupted (dataPkt 0 7) = false ∧
      IsCorrupted { dataPkt 0 7 with payload := (dataPkt 0 7).payload.set 3 8 } = true :=
  ⟨by decide,
   C6_single_field_change_detected (dataPkt 0 7)
    { dataPkt 0 7 with payload := (dataPkt 0 7).payload.set 3 8 }
    (by decide) (by decide) (by decide) rfl
    (Or.inr (Or.inr ⟨rfl, rfl, 3, 8, by decide, by decide, rfl⟩))⟩

theorem C7_in_window_is_circular_range_witness :
    in_window 11 2 0 = true ↔ ((0 : Int) - 11) % SEQSPACE < ((2 : Int) - 11) % SEQSPACE :=
  C7_in_window_is_circular_range 11 2 0 (by decide) (by decide) (by decide)

theorem C8_window_full_rejection_witness :
    ∃ s2, A_output fullWindow (msgOf 7) = .ok (s2, []) ∧ s2.base = fullWindow.base ∧
      s2.nextseqnum = fullWindow.nextseqnum ∧ s2.acked = fullWindow.acked ∧
      s2.window = fullWindow.window :=
  C8_window_full_rejection fullWindow (msgOf 7) (by decide) (by decide) (by decide)

theorem C9_accepted_submit_witness :
    ∃ s2 p,
      A_output (A_init Sender.boot) (msgOf 7) = .ok (s2, Event.tolayer3 0 p ::
        (if (A_init Sender.boot).base = (A_init Sender.boot).nextseqnum
          then [Event.starttimer 0 TIMEOUT] else [])) ∧
      p.seqnum = (A_init Sender.boot).nextseqnum ∧ p.acknum = -1 ∧ p.payload = (msgOf 7).data ∧
      s2.window.getD (A_init Sender.boot).nextseqnum.toNat Pkt.zero = p ∧
      s2.acked.getD (A_init Sender.boot).nextseqnum.toNat true = false ∧
      s2.nextseqnum = ((A_init Sender.boot).nextseqnum + 1) % SEQSPACE ∧
      s2.base = (A_init Sender.boot).base ∧
      s2.window.length = (A_init Sender.boot).window.length ∧
      s2.acked.length = (A_init Sender.boot).acked.length ∧
      (∀ i : Nat, i ≠ (A_init Sender.boot).nextseqnum.toNat →
        s2.window[i]? = (A_init Sender.boot).window[i]? ∧
        s2.acked[i]? = (A_init Sender.boot).acked[i]?) :=
  C9_accepted_submit (A_init Sender.boot) (msgOf 7) (by decide) (by decide) (by decide)
    (by decide) (by decide)

theorem C10_discarded_ack_is_noop_witness :
    A_input 13 firstSend (ackpkt 3) = .ok (firstSend, []) :=
  C10_discarded_ack_is_noop 13 firstSend (ackpkt 3)
    (by rw [show firstSend.base = 0 by decide]; decide)
    (by rw [show firstSend.nextseqnum = 1 by decide]; decide)
    (by decide)
    (Or.inr (Or.inl (by
      rw [show firstSend.base = 0 by decide, show firstSend.nextseqnum = 1 by decide]
      decide)))

/-! ## The receiver: in-order delivery -/

theorem deliverSweep_step (f : Nat) (r : Receiver) (hin : inBounds r.expected_seqnum = true)
    (hf : r.received.getD r.expected_seqnum.toNat false = true) :
    deliverSweep (f + 1) r =
      match deliverSweep f
          { r with
            received := r.received.set r.expected_seqnum.toNat false
            expected_seqnum := imod (iadd r.expected_seqnum 1) SEQSPACE } with
      | .ok (r2, evs) =>
        .ok (r2, Event.tolayer5 B (r.recv_buffer.getD r.expected_seqnum.toNat Pkt.zero).payload
          :: evs)
      | .outOfBounds => .outOfBounds
      | .outOfFuel => .outOfFuel := by
  rw [deliverSweep]
  simp only [hin, hf, if_true]

theorem deliverSweep_stop (f : Nat) (r : Receiver) (hin : inBounds r.expected_seqnum = true)
    (hf : r.received.getD r.expected_seqnum.toNat false = false) :
    deliverSweep (f + 1) r = .ok (r, []) := by
  rw [deliverSweep]
  simp only [hin, hf, if_true, if_false, Bool.false_eq_true]

theorem B_input_good (fuel : Nat) (r : Receiver) (p : Pkt) (hc : IsCorrupted p = false)
    (hin : inBounds p.seqnum = true) :
    B_input fuel r p =
      match deliverSweep fuel (bufferPacket r p) with
      | .ok (r3, evs) => .ok (r3, Event.tolayer3 B (ackpkt p.seqnum) :: evs)
      | .outOfBounds => .outOfBounds
      | .outOfFuel => .outOfFuel := by
  have hc2 := (checksum_ok_iff p).2 hc
  simp only [B_input, hc2, hin, ne_eq, not_true_eq_false, Bool.not_true, if_false,
    Bool.false_eq_true]

theorem bufferPacket_fresh (r : Receiver) (p : Pkt)
    (hf : r.received.getD p.seqnum.toNat false = false) :
    bufferPacket r p =
      { r with
        packets_received := iadd r.packets_received 1
        recv_buffer := r.recv_buffer.set p.seqnum.toNat p
        received := r.received.set p.seqnum.toNat true } := by
  simp only [bufferPacket, hf, Bool.not_false, if_true]

theorem bufferPacket_dup (r : Receiver) (p : Pkt)
    (hf : r.received.getD p.seqnum.toNat false = true) :
    bufferPacket r p = { r with packets_received := iadd r.packets_received 1 } := by
  simp only [bufferPacket, hf, Bool.not_true, if_false, Bool.false_eq_true]

/-- The delivery sweep from a state in which the flags describe the arrived
packets: it delivers the payloads of the packets `d, d + 1, ...` up to the
first one that has not arrived, and stops there. -/
theorem deliverSweep_run (n : Nat) (hn : n ≤ 12) (pk : Nat → Pkt) (seen : List Nat) :
    ∀ (m d : Nat) (r : Receiver) (fuel : Nat), n - d = m → PInv n pk seen d r →
      m + 1 ≤ fuel →
      ∃ r2 evs d2, deliverSweep fuel r = .ok (r2, evs) ∧ PInv n pk seen d2 r2 ∧ d2 ∉ seen ∧
        d ≤ d2 ∧ delivered evs = (List.range' d (d2 - d)).map (fun i => (pk i).payload) := by
  intro m
  induction m with
  | zero =>
    intro d r fuel hm hinv hfuel
    obtain ⟨hl1, hl2, hdn, he, hlow, hflags, hbuf, hlt⟩ := hinv
    obtain ⟨f, rfl⟩ : ∃ f, fuel = f + 1 := ⟨fuel - 1, by omega⟩
    have hd : d = n := by omega
    have hnot : d ∉ seen := fun hmem => absurd (hlt d hmem) (by omega)
    have hin : inBounds r.expected_seqnum = true :=
      (inBounds_iff _).2 (by simp only [SEQSPACE]; omega)
    have hf : r.received.getD r.expected_seqnum.toNat false = false := by
      have h4 := hflags r.expected_seqnum.toNat (by omega)
      by_contra hne
      have ht : r.received.getD r.expected_seqnum.toNat false = true := by simpa using hne
      obtain ⟨h5, h6⟩ := h4.1 ht
      have : r.expected_seqnum.toNat = d := by omega
      rw [this] at h6
      exact hnot h6
    refine ⟨r, [], d, deliverSweep_stop f r hin hf, ⟨hl1, hl2, hdn, he, hlow, hflags, hbuf, hlt⟩,
      hnot, Nat.le_refl _, ?_⟩
    simp [delivered]
  | succ m2 ih =>
    intro d r fuel hm hinv hfuel
    obtain ⟨hl1, hl2, hdn, he, hlow, hflags, hbuf, hlt⟩ := hinv
    obtain ⟨f, rfl⟩ : ∃ f, fuel = f + 1 := ⟨fuel - 1, by omega⟩
    have hin : inBounds r.expected_seqnum = true :=
      (inBounds_iff _).2 (by simp only [SEQSPACE]; omega)
    have hen : r.expected_seqnum.toNat = d := by omega
    by_cases hmem : d ∈ seen
    · have hf : r.received.getD r.expected_seqnum.toNat false = true := by
        rw [hen]
        exact (hflags d (by omega)).2 ⟨Nat.le_refl _, hmem⟩
      have hnx : imod (iadd r.expected_seqnum 1) SEQSPACE = ((d + 1 : Nat) : Int) % 12 := by
        rw [succMod_eq _ (by omega) (by simp only [SEQSPACE]; omega)]
        simp only [SEQSPACE]
        omega
      have hinv3 : PInv n pk seen (d + 1)
          { r with
            received := r.received.set r.expected_seqnum.toNat false
            expected_seqnum := imod (iadd r.expected_seqnum 1) SEQSPACE } := by
        refine ⟨hl1, by simpa using hl2, by omega, hnx, ?_, ?_, ?_, hlt⟩
        · intro i hi
          by_cases hid : i = d
          · rw [hid]
            exact hmem
          · exact hlow i (by omega)
        · intro i hi
          dsimp only
          rw [hen]
          by_cases hid : d = i
          · subst hid
            rw [getD_set_eq _ _ _ _ (by omega)]
            constructor
            · intro h
              exact absurd h (by decide)
            · intro h
              omega
          · rw [getD_set_ne _ _ _ _ _ hid, hflags i hi]
            constructor
            · intro h
              exact ⟨by omega, h.2⟩
            · intro h
              exact ⟨by omega, h.2⟩
        · intro i hi hs
          exact hbuf i (by omega) hs
      obtain ⟨r2, evs, d2, hrun, hinv2, hnot2, hle2, hdel⟩ :=
        ih (d + 1) _ f (by omega) hinv3 (by omega)
      refine ⟨r2,
        Event.tolayer5 B (r.recv_buffer.getD r.expected_seqnum.toNat Pkt.zero).payload :: evs,
        d2, ?_, hinv2, hnot2, by omega, ?_⟩
      · rw [deliverSweep_step f r hin hf, hrun]
      · have hsplit : d2 - d = (d2 - (d + 1)) + 1 := by omega
        rw [hsplit, List.range'_succ]
        simp only [delivered, List.map_cons, hdel, hen]
        rw [hbuf d (Nat.le_refl _) hmem]
    · have hf : r.received.getD r.expected_seqnum.toNat false = false := by
        rw [hen]
        by_contra hne
        have ht : r.received.getD d false = true := by simpa using hne
        exact hmem ((hflags d (by omega)).1 ht).2
      refine ⟨r, [], d, deliverSweep_stop f r hin hf,
        ⟨hl1, hl2, hdn, he, hlow, hflags, hbuf, hlt⟩, hmem, Nat.le_refl _, ?_⟩
      simp [delivered]

theorem delivered_append (es1 es2 : List Event) :
    delivered (es1 ++ es2) = delivered es1 ++ delivered es2 := by
  induction es1 with
  | nil => rfl
  | cons e t ih =>
    cases e <;> simp [delivered, ih]

/-- One arrival of a packet that has not arrived before: `B_input` returns,
and its sweep delivers the packets `d, ..., d2 - 1`. -/
theorem B_input_arrival (n : Nat) (hn : n ≤ 12) (pk : Nat → Pkt)
    (hseq : ∀ i, i < n → (pk i).seqnum = i) (hunc : ∀ i, i < n → IsCorrupted (pk i) = false)
    (seen : List Nat) (d : Nat) (r : Receiver) (hinv : PInv n pk seen d r) (q : Nat)
    (hq : q < n) (hqs : q ∉ seen) (fuel : Nat) (hfuel : 13 ≤ fuel) :
    ∃ r2 evs d2, B_input fuel r (pk q) = .ok (r2, evs) ∧ PInv n pk (q :: seen) d2 r2 ∧
      d2 ∉ q :: seen ∧ d ≤ d2 ∧
      delivered evs = (List.range' d (d2 - d)).map (fun i => (pk i).payload) := by
  obtain ⟨hl1, hl2, hdn, he, hlow, hflags, hbuf, hlt⟩ := hinv
  have hsq : (pk q).seqnum.toNat = q := by
    rw [hseq q hq]
    exact Int.toNat_ofNat q
  have hdq : d ≤ q := by
    by_contra hlt2
    exact hqs (hlow q (by omega))
  have hfq : r.received.getD (pk q).seqnum.toNat false = false := by
    rw [hsq]
    by_contra hne
    have ht : r.received.getD q false = true := by simpa using hne
    exact hqs ((hflags q (by omega)).1 ht).2
  have hinv1 : PInv n pk (q :: seen) d (bufferPacket r (pk q)) := by
    rw [bufferPacket_fresh r (pk q) hfq, hsq]
    refine ⟨by simpa using hl1, by simpa using hl2, hdn, he, ?_, ?_, ?_, ?_⟩
    · intro i hi
      exact List.mem_cons_of_mem _ (hlow i hi)
    · intro i hi
      dsimp only
      by_cases hqi : q = i
      · subst hqi
        rw [getD_set_eq _ _ _ _ (by omega)]
        simp [hdq]
      · rw [getD_set_ne _ _ _ _ _ hqi, hflags i hi]
        constructor
        · intro h
          exact ⟨h.1, List.mem_cons_of_mem _ h.2⟩
        · intro h
          refine ⟨h.1, ?_⟩
          rcases List.mem_cons.1 h.2 with h3 | h3
          · exact absurd h3.symm hqi
          · exact h3
    · intro i hi hs
      dsimp only
      by_cases hqi : q = i
      · subst hqi
        exact getD_set_eq _ _ _ _ (by omega)
      · rw [getD_set_ne _ _ _ _ _ hqi]
        rcases List.mem_cons.1 hs with h3 | h3
        · exact absurd h3.symm hqi
        · exact hbuf i hi h3
    · intro i hs
      rcases List.mem_cons.1 hs with h3 | h3
      · omega
      · exact hlt i h3
  obtain ⟨r2, evs, d2, hrun, hinv2, hnot2, hle2, hdel⟩ :=
    deliverSweep_run n hn pk (q :: seen) (n - d) d _ fuel rfl hinv1 (by omega)
  have hin : inBounds (pk q).seqnum = true := by
    rw [hseq q hq]
    exact (inBounds_iff _).2 (by simp only [SEQSPACE]; omega)
  refine ⟨r2, Event.tolayer3 B (ackpkt (pk q).seqnum) :: evs, d2, ?_, hinv2, hnot2, hle2, ?_⟩
  · rw [B_input_good fuel r (pk q) (hunc q hq) hin, hrun]
  · simp only [delivered, hdel]

/-- The run of the receiver over arrivals that are distinct and new. -/
theorem runB_arrivals (n : Nat) (hn : n ≤ 12) (pk : Nat → Pkt)
    (hseq : ∀ i, i < n → (pk i).seqnum = i) (hunc : ∀ i, i < n → IsCorrupted (pk i) = false)
    (fuel : Nat) (hfuel : 13 ≤ fuel) :
    ∀ (suf seen : List Nat) (d : Nat) (r : Receiver), PInv n pk seen d r → d ∉ seen →
      (∀ q, q ∈ suf → q < n ∧ q ∉ seen) → suf.Nodup →
      ∃ r2 evs d2, runB fuel r (suf.map pk) = .ok (r2, evs) ∧
        PInv n pk (suf.reverse ++ seen) d2 r2 ∧ d2 ∉ suf.reverse ++ seen ∧ d ≤ d2 ∧
        delivered evs = (List.range' d (d2 - d)).map (fun i => (pk i).payload) := by
  intro suf
  induction suf with
  | nil =>
    intro seen d r hinv hd _ _
    refine ⟨r, [], d, rfl, by simpa using hinv, by simpa using hd, Nat.le_refl _, ?_⟩
    simp [delivered]
  | cons q t ih =>
    intro seen d r hinv _ hnew hnd
    obtain ⟨hqn, hqs⟩ := hnew q (List.mem_cons_self _ _)
    obtain ⟨r1, evs1, d1, hrun1, hinv1, hnot1, hle1, hdel1⟩ :=
      B_input_arrival n hn pk hseq hunc seen d r hinv q hqn hqs fuel hfuel
    have hnd2 := List.nodup_cons.1 hnd
    have hnew2 : ∀ x, x ∈ t → x < n ∧ x ∉ q :: seen := by
      intro x hx
      obtain ⟨h1, h2⟩ := hnew x (List.mem_cons_of_mem _ hx)
      refine ⟨h1, ?_⟩
      intro hmem
      rcases List.mem_cons.1 hmem with h3 | h3
      · rw [h3] at hx
        exact hnd2.1 hx
      · exact h2 h3
    obtain ⟨r2, evs2, d2, hrun2, hinv2, hnot2, hle2, hdel2⟩ :=
      ih (q :: seen) d1 r1 hinv1 hnot1 hnew2 hnd2.2
    have hlist : (q :: t).reverse ++ seen = t.reverse ++ (q :: seen) := by simp
    refine ⟨r2, evs1 ++ evs2, d2, ?_, ?_, ?_, by omega, ?_⟩
    · rw [List.map_cons, runB, hrun1]
      simp only [Res.bind, hrun2]
    · rw [hlist]
      exact hinv2
    · rw [hlist]
      exact hnot2
    · have hr : List.range' d (d1 - d) ++ List.range' d1 (d2 - d1) = List.range' d (d2 - d) := by
        have hsum : d2 - d = (d2 - d1) + (d1 - d) := by omega
        have hd1 : List.range' d1 (d2 - d1) = List.range' (d + (d1 - d)) (d2 - d1) := by
          rw [Nat.add_sub_cancel' hle1]
        rw [hsum, hd1]
        exact List.range'_append_1 d (d1 - d) (d2 - d1)
      rw [delivered_append, hdel1, hdel2, ← List.map_append, hr]

/-- Claim C2: from `B_init`, for `n ≤ SEQSPACE` uncorrupted packets
`pk 0, ..., pk (n - 1)` with the sequence numbers `0, ..., n - 1`, fed to
`B_input` once each in any order (`order` is a permutation of `0..n-1`), every
call returns, the payloads passed to `tolayer5` over the run are those of
`pk 0, ..., pk (n - 1)` in this order, and afterwards
`expected_seqnum = n mod SEQSPACE` and every `received` flag is false. -/
theorem C2_in_order_delivery (n : Nat) (hn : (n : Int) ≤ SEQSPACE) (pk : Nat → Pkt)
    (order : List Nat) (r0 : Receiver) (hr0 : r0.WF)
    (hseq : ∀ i, i < n → (pk i).seqnum = i) (hunc : ∀ i, i < n → IsCorrupted (pk i) = false)
    (hperm : order.Perm (List.range n)) (fuel : Nat) (hfuel : 13 ≤ fuel) :
    ∃ r evs, runB fuel (B_init r0) (order.map pk) = .ok (r, evs) ∧
      delivered evs = (List.range n).map (fun i => (pk i).payload) ∧
      r.expected_seqnum = (n : Int) % SEQSPACE ∧
      ∀ i : Nat, i < 12 → r.received.getD i false = false := by
  have hn2 : n ≤ 12 := by
    simp only [SEQSPACE] at hn
    omega
  have hinit : PInv n pk [] 0 (B_init r0) := by
    refine ⟨hr0.1, by simp [B_init, SEQSPACE], Nat.zero_le _, by simp [B_init], ?_, ?_, ?_, ?_⟩
    · intro i hi
      omega
    · intro i hi
      show (List.replicate 12 false).getD i false = true ↔ _
      rw [List.getD_eq_getElem?_getD, List.getElem?_replicate]
      simp [hi]
    · intro i _ hs
      simp at hs
    · intro i hs
      simp at hs
  have hmem : ∀ q, q ∈ order ↔ q < n := by
    intro q
    rw [hperm.mem_iff, List.mem_range]
  have hnd : order.Nodup := hperm.nodup_iff.2 (List.nodup_range n)
  obtain ⟨r, evs, d, hrun, hinv, hnot, _, hdel⟩ :=
    runB_arrivals n hn2 pk hseq hunc fuel hfuel order [] 0 (B_init r0) hinit (by simp)
      (fun q hq => ⟨(hmem q).1 hq, by simp⟩) hnd
  obtain ⟨_, _, hdn, he, _, hflags, _, hlt⟩ := hinv
  have hd : d = n := by
    by_contra hne
    apply hnot
    simp only [List.append_nil, List.mem_reverse]
    exact (hmem d).2 (by omega)
  subst hd
  refine ⟨r, evs, hrun, ?_, by simp only [SEQSPACE]; exact he, ?_⟩
  · rw [hdel, List.range_eq_range']
    simp
  · intro i hi
    by_contra hne
    have ht : r.received.getD i false = true := by simpa using hne
    obtain ⟨h1, h2⟩ := (hflags i hi).1 ht
    have := hlt i h2
    omega

set_option maxRecDepth 100000 in
theorem C2_in_order_delivery_witness :
    ∃ r evs,
      runB 13 (B_init Receiver.boot)
        (([3, 2, 1, 0, 11, 5, 4, 10, 9, 8, 6, 7] : List Nat).map (fun i => dataPkt i i)) =
        .ok (r, evs) ∧
      delivered evs = (List.range 12).map (fun i => (dataPkt i i).payload) ∧
      r.expected_seqnum = ((12 : Nat) : Int) % SEQSPACE ∧
      ∀ i : Nat, i < 12 → r.received.getD i false = false :=
  C2_in_order_delivery 12 (by decide) (fun i => dataPkt i i)
    [3, 2, 1, 0, 11, 5, 4, 10, 9, 8, 6, 7] Receiver.boot (by decide) (fun _ _ => rfl)
    (by decide) (by decide) 13 (by decide)

/-! ## The sender: timeout -/

/-- Claim C12: for every sender state with `base` in `[0, SEQSPACE)`,
`A_timerinterrupt` calls `starttimer(TIMEOUT)` once and sends exactly one
packet to the channel, the packet stored at `window[base]`; `base`,
`nextseqnum`, `acked` and `window` are unchanged. -/
theorem C12_timeout_resends_base_packet (s : Sender) (hs : s.WF)
    (hb : 0 ≤ s.base ∧ s.base < SEQSPACE) :
    ∃ s2 p, s.window[s.base.toNat]? = some p ∧
      A_timerinterrupt s = .ok (s2, [Event.starttimer 0 TIMEOUT, Event.tolayer3 0 p]) ∧
      s2.base = s.base ∧ s2.nextseqnum = s.nextseqnum ∧ s2.acked = s.acked ∧
      s2.window = s.window := by
  have hin : inBounds s.base = true := (inBounds_iff _).2 hb
  have hlt : s.base.toNat < s.window.length := by
    have := hb.2
    simp only [SEQSPACE] at this
    rw [hs.1]
    omega
  refine ⟨{ s with packets_resent := iadd s.packets_resent 1 }, s.window[s.base.toNat],
    List.getElem?_eq_getElem hlt, ?_, rfl, rfl, rfl, rfl⟩
  simp only [A_timerinterrupt, hin, if_true, List.getD_eq_getElem?_getD,
    List.getElem?_eq_getElem hlt, Option.getD_some]

set_option maxRecDepth 100000 in
theorem C12_timeout_resends_base_packet_witness :
    (∃ s2 p, firstSend.window[firstSend.base.toNat]? = some p ∧
      A_timerinterrupt firstSend =
        .ok (s2, [Event.starttimer 0 TIMEOUT, Event.tolayer3 0 p]) ∧
      s2.base = firstSend.base ∧ s2.nextseqnum = firstSend.nextseqnum ∧
      s2.acked = firstSend.acked ∧ s2.window = firstSend.window) ∧
    (Res.events (A_timerinterrupt firstSend) =
        some [Event.starttimer 0 TIMEOUT, Event.tolayer3 0 (dataPkt 0 7)] ∧
      ((Res.state (A_timerinterrupt firstSend)).bind
        (fun s => (Res.state (A_input 13 s (ackpkt 0))).map Sender.base)) = some 1) :=
  ⟨C12_timeout_resends_base_packet firstSend (by decide) (by decide), by decide⟩

/-! ## The receiver: corrupted packets and acknowledgments -/

theorem prevMod_eq (e : Int) (he1 : 0 ≤ e) (he2 : e < SEQSPACE) :
    imod (isub (iadd e SEQSPACE) 1) SEQSPACE = (e - 1) % SEQSPACE := by
  simp only [SEQSPACE] at *
  have h1 : iadd e 12 = e + 12 := wrap32_of_range _ (by omega) (by omega)
  have h2 : isub (e + 12) 1 = e + 12 - 1 := wrap32_of_range _ (by omega) (by omega)
  rw [h1, h2]
  unfold imod
  rw [Int.tmod_eq_emod (by omega) (by omega)]
  omega

theorem zeros_eq : (List.range 20).map (fun _ => (0 : Int)) = List.replicate 20 0 := by
  decide

/-- Claim C13: for every receiver state with `expected_seqnum` in
`[0, SEQSPACE)` and every corrupted packet, `B_input` returns with the
receiver state unchanged (so `recv_buffer`, `received` and `expected_seqnum`
are), delivers nothing, and sends exactly one packet: `acknum` is
`(expected_seqnum - 1) mod SEQSPACE`, `seqnum` is -1 and the payload is 20
zero bytes. -/
theorem C13_corrupted_packet_response (fuel : Nat) (r : Receiver) (packet : Pkt)
    (he : 0 ≤ r.expected_seqnum ∧ r.expected_seqnum < SEQSPACE)
    (hc : IsCorrupted packet = true) :
    ∃ ack, B_input fuel r packet = .ok (r, [Event.tolayer3 B ack]) ∧
      ack.acknum = (r.expected_seqnum - 1) % SEQSPACE ∧ ack.seqnum = -1 ∧
      ack.payload = List.replicate 20 0 := by
  have hne : ¬ addPayload (iadd packet.seqnum packet.acknum) packet.payload = packet.checksum := by
    intro h
    rw [(checksum_ok_iff packet).1 h] at hc
    exact absurd hc (by decide)
  refine ⟨ackpkt (imod (isub (iadd r.expected_seqnum SEQSPACE) 1) SEQSPACE), ?_, ?_, rfl,
    zeros_eq⟩
  · simp only [B_input, hne, ne_eq, not_false_eq_true, if_true]
  · exact prevMod_eq _ he.1 he.2

set_option maxRecDepth 100000 in
theorem C13_corrupted_packet_response_witness :
    ∃ ack, B_input 13 (B_init Receiver.boot) { dataPkt 0 7 with checksum := 0 } =
        .ok (B_init Receiver.boot, [Event.tolayer3 B ack]) ∧
      ack.acknum = ((B_init Receiver.boot).expected_seqnum - 1) % SEQSPACE ∧ ack.seqnum = -1 ∧
      ack.payload = List.replicate 20 0 :=
  C13_corrupted_packet_response 13 (B_init Receiver.boot) { dataPkt 0 7 with checksum := 0 }
    (by decide) (by decide)

/-! ## The receiver: case analysis, the sweep, reachable states -/

theorem B_input_cases (fuel : Nat) (r : Receiver) (p : Pkt) (r2 : Receiver) (evs : List Event)
    (h : B_input fuel r p = .ok (r2, evs)) :
    (IsCorrupted p = true ∧ r2 = r ∧
      evs = [Event.tolayer3 B
        (ackpkt (imod (isub (iadd r.expected_seqnum SEQSPACE) 1) SEQSPACE))]) ∨
    (IsCorrupted p = false ∧ inBounds p.seqnum = true ∧
      ∃ evs2, deliverSweep fuel (bufferPacket r p) = .ok (r2, evs2) ∧
        evs = Event.tolayer3 B (ackpkt p.seqnum) :: evs2) := by
  by_cases hc : addPayload (iadd p.seqnum p.acknum) p.payload = p.checksum
  · right
    have hc2 := (checksum_ok_iff p).1 hc
    by_cases hin : inBounds p.seqnum = true
    · rw [B_input_good fuel r p hc2 hin] at h
      cases hsw : deliverSweep fuel (bufferPacket r p) with
      | ok a =>
        obtain ⟨r3, evs3⟩ := a
        rw [hsw] at h
        simp only [Res.ok.injEq, Prod.mk.injEq] at h
        refine ⟨hc2, hin, evs3, ?_, h.2.symm⟩
        rw [← h.1]
      | outOfBounds =>
        rw [hsw] at h
        simp at h
      | outOfFuel =>
        rw [hsw] at h
        simp at h
    · simp [B_input, hc, hin] at h
  · left
    simp only [B_input, hc, ne_eq, not_false_eq_true, if_true, Res.ok.injEq,
      Prod.mk.injEq] at h
    refine ⟨?_, h.1.symm, h.2.symm⟩
    by_contra hnc
    have hf : IsCorrupted p = false := by simpa using hnc
    exact hc ((checksum_ok_iff p).2 hf)

/-- What a returning delivery sweep has done: it stops at a clear flag inside
the array, writes neither `recv_buffer` nor the counters, and makes no call
but `tolayer5`. -/
theorem deliverSweep_sound (fuel : Nat) (r r2 : Receiver) (evs : List Event) (hr : r.WF)
    (h : deliverSweep fuel r = .ok (r2, evs)) :
    r2.WF ∧ inBounds r2.expected_seqnum = true ∧
      r2.received.getD r2.expected_seqnum.toNat false = false ∧
      r2.recv_buffer = r.recv_buffer ∧ r2.packets_received = r.packets_received ∧
      r2.B_nextseqnum = r.B_nextseqnum ∧ sentPkts evs = [] := by
  induction fuel generalizing r r2 evs with
  | zero => simp [deliverSweep] at h
  | succ f ih =>
    by_cases hin : inBounds r.expected_seqnum = true
    · by_cases hf : r.received.getD r.expected_seqnum.toNat false = true
      · rw [deliverSweep_step f r hin hf] at h
        cases hsw : deliverSweep f
            { r with
              received := r.received.set r.expected_seqnum.toNat false
              expected_seqnum := imod (iadd r.expected_seqnum 1) SEQSPACE } with
        | ok a =>
          obtain ⟨r3, evs3⟩ := a
          rw [hsw] at h
          simp only [Res.ok.injEq, Prod.mk.injEq] at h
          have hr3 : Receiver.WF
              { r with
                received := r.received.set r.expected_seqnum.toNat false
                expected_seqnum := imod (iadd r.expected_seqnum 1) SEQSPACE } :=
            ⟨hr.1, by simpa using hr.2⟩
          obtain ⟨h1, h2, h3, h4, h5, h6, h7⟩ := ih _ r3 evs3 hr3 hsw
          rw [← h.1, ← h.2]
          exact ⟨h1, h2, h3, h4, h5, h6, by simpa [sentPkts] using h7⟩
        | outOfBounds =>
          rw [hsw] at h
          simp at h
        | outOfFuel =>
          rw [hsw] at h
          simp at h
      · have hf2 : r.received.getD r.expected_seqnum.toNat false = false := by simpa using hf
        rw [deliverSweep_stop f r hin hf2] at h
        simp only [Res.ok.injEq, Prod.mk.injEq] at h
        rw [← h.1, ← h.2]
        exact ⟨hr, hin, hf2, rfl, rfl, rfl, rfl⟩
    · simp [deliverSweep, hin] at h

theorem count_set_false (l : List Bool) (i : Nat) (hi : i < l.length)
    (h : l.getD i false = true) :
    (l.set i false).count true + 1 = l.count true := by
  induction l generalizing i with
  | nil => simp at hi
  | cons a t ih =>
    cases i with
    | zero =>
      simp only [List.getD_cons_zero] at h
      subst h
      simp
    | succ k =>
      have hk : k < t.length := by simpa using hi
      simp only [List.getD_cons_succ] at h
      have := ih k hk h
      cases a <;> simp [List.count_cons] <;> omega

/-- The delivery sweep returns: each turn clears a set flag, and there are at
most `SEQSPACE` of them. -/
theorem deliverSweep_total (fuel : Nat) (r : Receiver) (hr : r.WF)
    (he : 0 ≤ r.expected_seqnum ∧ r.expected_seqnum < 12)
    (hfuel : r.received.count true < fuel) :
    ∃ r2 evs, deliverSweep fuel r = .ok (r2, evs) := by
  induction fuel generalizing r with
  | zero => omega
  | succ f ih =>
    have hin : inBounds r.expected_seqnum = true :=
      (inBounds_iff _).2 (by simp only [SEQSPACE]; exact he)
    by_cases hf : r.received.getD r.expected_seqnum.toNat false = true
    · have hlt : r.expected_seqnum.toNat < r.received.length := by
        rw [hr.2]
        omega
      have hcount := count_set_false r.received _ hlt hf
      have hnx : imod (iadd r.expected_seqnum 1) SEQSPACE = (r.expected_seqnum + 1) % 12 :=
        succMod_eq _ he.1 (by simp only [SEQSPACE]; exact he.2)
      obtain ⟨r2, evs, hsw⟩ := ih
        { r with
          received := r.received.set r.expected_seqnum.toNat false
          expected_seqnum := imod (iadd r.expected_seqnum 1) SEQSPACE }
        ⟨hr.1, by simpa using hr.2⟩ (by dsimp only; rw [hnx]; omega) (by dsimp only; omega)
      exact ⟨r2, _, by rw [deliverSweep_step f r hin hf, hsw]⟩
    · have hf2 : r.received.getD r.expected_seqnum.toNat false = false := by simpa using hf
      exact ⟨r, [], deliverSweep_stop f r hin hf2⟩

theorem bufferPacket_WF (r : Receiver) (p : Pkt) (hr : r.WF) : (bufferPacket r p).WF := by
  unfold bufferPacket
  dsimp only
  split
  · exact ⟨by simpa using hr.1, by simpa using hr.2⟩
  · exact hr

theorem bufferPacket_expected (r : Receiver) (p : Pkt) :
    (bufferPacket r p).expected_seqnum = r.expected_seqnum := by
  unfold bufferPacket
  dsimp only
  split <;> rfl

theorem RInv_init (r0 : Receiver) (h : r0.WF) : RInv (B_init r0) := by
  refine ⟨⟨h.1, by simp [B_init, SEQSPACE]⟩, by simp [B_init], by simp [B_init], ?_⟩
  show (List.replicate 12 false).getD (0 : Int).toNat false = false
  decide

theorem RInv_input (fuel : Nat) (r : Receiver) (p : Pkt) (r2 : Receiver) (evs : List Event)
    (hinv : RInv r) (h : B_input fuel r p = .ok (r2, evs)) : RInv r2 := by
  rcases B_input_cases fuel r p r2 evs h with ⟨_, rfl, _⟩ | ⟨_, _, evs2, hsw, _⟩
  · exact hinv
  · obtain ⟨h1, h2, h3, _⟩ :=
      deliverSweep_sound fuel _ r2 evs2 (bufferPacket_WF r p hinv.1) hsw
    have := (inBounds_iff _).1 h2
    simp only [SEQSPACE] at this
    exact ⟨h1, this.1, this.2, h3⟩

theorem RReach_RInv (r : Receiver) (h : RReach r) : RInv r := by
  induction h with
  | init r0 h0 => exact RInv_init r0 h0
  | input fuel r p r2 evs _ _ _ hstep ih => exact RInv_input fuel r p r2 evs ih hstep

/-! ## The receiver: acknowledgments, duplicates, buffering -/

theorem ackpkt_fields (a : Int) :
    (ackpkt a).acknum = a ∧ (ackpkt a).seqnum = -1 ∧ (ackpkt a).payload = List.replicate 20 0 :=
  ⟨rfl, rfl, zeros_eq⟩

theorem count_true_le (l : List Bool) : l.count true ≤ l.length := List.count_le_length _ _

/-- Claim C14: for every receiver state and every uncorrupted packet with
`seqnum` in `[0, SEQSPACE)`, fresh or duplicate, a call of `B_input` that
returns has sent exactly one packet to the channel, with `acknum` the
packet's `seqnum`, `seqnum` -1 and 20 zero bytes of payload; and the call
returns, for any fuel of 13 or more, in every state whose arrays have their
length and whose `expected_seqnum` is in `[0, SEQSPACE)`. -/
theorem C14_ack_carries_own_seqnum (fuel : Nat) (r : Receiver) (packet : Pkt)
    (hc : IsCorrupted packet = false)
    (hs : 0 ≤ packet.seqnum ∧ packet.seqnum < SEQSPACE) :
    (∀ r2 evs, B_input fuel r packet = .ok (r2, evs) →
      ∃ ack, sentPkts evs = [ack] ∧ ack.acknum = packet.seqnum ∧ ack.seqnum = -1 ∧
        ack.payload = List.replicate 20 0) ∧
    (r.WF → 0 ≤ r.expected_seqnum ∧ r.expected_seqnum < SEQSPACE → 13 ≤ fuel →
      ∃ r2 evs, B_input fuel r packet = .ok (r2, evs)) := by
  have hin : inBounds packet.seqnum = true := (inBounds_iff _).2 hs
  constructor
  · intro r2 evs h
    -- the sweep may read outside `received` when the state is not well formed,
    -- so the events of the sweep are taken from the equation of the call
    rw [B_input_good fuel r packet hc hin] at h
    have hnone : ∀ f (q q2 : Receiver) (es : List Event),
        deliverSweep f q = .ok (q2, es) → sentPkts es = [] := by
      intro f
      induction f with
      | zero =>
        intro q q2 es hq
        simp [deliverSweep] at hq
      | succ f ih =>
        intro q q2 es hq
        by_cases hi : inBounds q.expected_seqnum = true
        · by_cases hf : q.received.getD q.expected_seqnum.toNat false = true
          · rw [deliverSweep_step f q hi hf] at hq
            cases hsw : deliverSweep f
                { q with
                  received := q.received.set q.expected_seqnum.toNat false
                  expected_seqnum := imod (iadd q.expected_seqnum 1) SEQSPACE } with
            | ok a =>
              obtain ⟨q3, es3⟩ := a
              rw [hsw] at hq
              simp only [Res.ok.injEq, Prod.mk.injEq] at hq
              rw [← hq.2]
              simpa [sentPkts] using ih _ _ _ hsw
            | outOfBounds =>
              rw [hsw] at hq
              simp at hq
            | outOfFuel =>
              rw [hsw] at hq
              simp at hq
          · have hf2 : q.received.getD q.expected_seqnum.toNat false = false := by
              simpa using hf
            rw [deliverSweep_stop f q hi hf2] at hq
            simp only [Res.ok.injEq, Prod.mk.injEq] at hq
            rw [← hq.2]
            rfl
        · simp [deliverSweep, hi] at hq
    cases hsw : deliverSweep fuel (bufferPacket r packet) with
    | ok a =>
      obtain ⟨q3, es3⟩ := a
      rw [hsw] at h
      simp only [Res.ok.injEq, Prod.mk.injEq] at h
      refine ⟨ackpkt packet.seqnum, ?_, ackpkt_fields _⟩
      rw [← h.2]
      simp [sentPkts, hnone _ _ _ _ hsw]
    | outOfBounds =>
      rw [hsw] at h
      simp at h
    | outOfFuel =>
      rw [hsw] at h
      simp at h
  · intro hr he hfuel
    have hwf := bufferPacket_WF r packet hr
    have hcount := count_true_le (bufferPacket r packet).received
    rw [hwf.2] at hcount
    obtain ⟨r2, evs, hsw⟩ := deliverSweep_total fuel (bufferPacket r packet) hwf
      (by rw [bufferPacket_expected]; simp only [SEQSPACE] at he; exact he) (by omega)
    exact ⟨r2, _, by rw [B_input_good fuel r packet hc hin, hsw]⟩

set_option maxRecDepth 100000 in
theorem C14_ack_carries_own_seqnum_witness :
    (∃ ack, sentPkts [Event.tolayer3 B (ackpkt 0), Event.tolayer5 B (List.replicate 20 7)] =
        [ack] ∧ ack.acknum = (dataPkt 0 7).seqnum ∧ ack.seqnum = -1 ∧
        ack.payload = List.replicate 20 0) ∧
    (∃ r2 evs, B_input 13 (B_init Receiver.boot) (dataPkt 0 7) = .ok (r2, evs)) :=
  ⟨(C14_ack_carries_own_seqnum 13 (B_init Receiver.boot) (dataPkt 0 7) (by decide)
      (by decide)).1 firstRecv _ firstRecv_eq,
   (C14_ack_carries_own_seqnum 13 (B_init Receiver.boot) (dataPkt 0 7) (by decide)
      (by decide)).2 (by decide) (by decide) (by decide)⟩

/-- Claim C15: in a receiver state reachable from `B_init`, an uncorrupted
packet with `seqnum` in `[0, SEQSPACE)` whose `received` flag is already set
makes `B_input` return with `recv_buffer`, `received` and `expected_seqnum`
unchanged and with the acknowledgment as its only call (nothing is delivered);
and for a packet whose flag is clear the statements before the delivery sweep
write `recv_buffer[seqnum]` and `received[seqnum]` and no other slot. -/
theorem C15_duplicate_leaves_receiver_unchanged (fuel : Nat) (r : Receiver) (packet : Pkt)
    (hr : RReach r) (hc : IsCorrupted packet = false)
    (hs : 0 ≤ packet.seqnum ∧ packet.seqnum < SEQSPACE) (hfuel : 1 ≤ fuel) :
    (r.received.getD packet.seqnum.toNat false = true →
      ∃ r2, B_input fuel r packet = .ok (r2, [Event.tolayer3 B (ackpkt packet.seqnum)]) ∧
        r2.recv_buffer = r.recv_buffer ∧ r2.received = r.received ∧
        r2.expected_seqnum = r.expected_seqnum) ∧
    (r.received.getD packet.seqnum.toNat false = false →
      (bufferPacket r packet).recv_buffer = r.recv_buffer.set packet.seqnum.toNat packet ∧
      (bufferPacket r packet).received = r.received.set packet.seqnum.toNat true ∧
      (bufferPacket r packet).expected_seqnum = r.expected_seqnum ∧
      (∀ i : Nat, i ≠ packet.seqnum.toNat →
        (bufferPacket r packet).recv_buffer[i]? = r.recv_buffer[i]? ∧
        (bufferPacket r packet).received[i]? = r.received[i]?) ∧
      B_input fuel r packet =
        match deliverSweep fuel (bufferPacket r packet) with
        | .ok (r3, evs) => .ok (r3, Event.tolayer3 B (ackpkt packet.seqnum) :: evs)
        | .outOfBounds => .outOfBounds
        | .outOfFuel => .outOfFuel) := by
  have hin : inBounds packet.seqnum = true := (inBounds_iff _).2 hs
  obtain ⟨_, he1, he2, hclear⟩ := RReach_RInv r hr
  obtain ⟨f, rfl⟩ : ∃ f, fuel = f + 1 := ⟨fuel - 1, by omega⟩
  have hine : inBounds r.expected_seqnum = true :=
    (inBounds_iff _).2 (by simp only [SEQSPACE]; exact ⟨he1, he2⟩)
  constructor
  · intro hdup
    refine ⟨{ r with packets_received := iadd r.packets_received 1 }, ?_, rfl, rfl, rfl⟩
    rw [B_input_good (f + 1) r packet hc hin, bufferPacket_dup r packet hdup,
      deliverSweep_stop f { r with packets_received := iadd r.packets_received 1 } hine hclear]
  · intro hfresh
    have hb := bufferPacket_fresh r packet hfresh
    refine ⟨by rw [hb], by rw [hb], by rw [hb], ?_, B_input_good (f + 1) r packet hc hin⟩
    intro i hi
    rw [hb]
    exact ⟨List.getElem?_set_ne (Ne.symm hi), List.getElem?_set_ne (Ne.symm hi)⟩
theorem Res.state_eq_some {α : Type} (x : Res (α × List Event)) (a : α)
    (h : Res.state x = some a) : ∃ evs, x = .ok (a, evs) := by
  cases x with
  | ok p =>
    obtain ⟨a2, evs⟩ := p
    simp only [Res.state, Option.some.injEq] at h
    exact ⟨evs, by rw [h]⟩
  | outOfBounds => simp [Res.state] at h
  | outOfFuel => simp [Res.state] at h

theorem runB_reach (fuel : Nat) (ps : List Pkt) (r r2 : Receiver) (evs : List Event)
    (hr : RReach r) (hps : ∀ p, p ∈ ps → 0 ≤ p.seqnum ∧ p.seqnum < SEQSPACE)
    (h : runB fuel r ps = .ok (r2, evs)) : RReach r2 := by
  induction ps generalizing r r2 evs with
  | nil =>
    simp only [runB, Res.ok.injEq, Prod.mk.injEq] at h
    rw [← h.1]
    exact hr
  | cons p t ih =>
    rw [runB] at h
    cases h1 : B_input fuel r p with
    | ok x1 =>
      rw [h1] at h
      simp only [Res.bind] at h
      cases h2 : runB fuel x1.1 t with
      | ok x2 =>
        obtain ⟨r3, evs3⟩ := x2
        rw [h2] at h
        simp only [Res.bind, Res.ok.injEq, Prod.mk.injEq] at h
        have hp := hps p (List.mem_cons_self _ _)
        have hr1 : RReach x1.1 := RReach.input fuel r p x1.1 x1.2 hr hp.1 hp.2 h1
        have := ih x1.1 r3 evs3 hr1 (fun q hq => hps q (List.mem_cons_of_mem _ hq)) h2
        rw [← h.1]
        exact this
      | outOfBounds =>
        rw [h2] at h
        simp [Res.bind] at h
      | outOfFuel =>
        rw [h2] at h
        simp [Res.bind] at h
    | outOfBounds =>
      rw [h1] at h
      simp [Res.bind] at h
    | outOfFuel =>
      rw [h1] at h
      simp [Res.bind] at h

theorem firstRecv_reach : RReach firstRecv :=
  RReach.input 13 _ (dataPkt 0 7) firstRecv _ (RReach.init Receiver.boot (by decide))
    (by decide) (by decide) firstRecv_eq

set_option maxRecDepth 100000 in
theorem recvAfter_two_state :
    Res.state (runB 13 (B_init Receiver.boot) (([2] : List Int).map (fun i => dataPkt i i))) =
      some (recvAfter [2]) := by
  decide

theorem recvAfter_two_reach : RReach (recvAfter [2]) := by
  obtain ⟨evs, h⟩ := Res.state_eq_some _ _ recvAfter_two_state
  exact runB_reach 13 _ _ _ evs (RReach.init Receiver.boot (by decide)) (by decide) h

set_option maxRecDepth 100000 in
theorem C15_duplicate_leaves_receiver_unchanged_witness :
    (∃ r2, B_input 13 (recvAfter [2]) (dataPkt 2 2) =
        .ok (r2, [Event.tolayer3 B (ackpkt (dataPkt 2 2).seqnum)]) ∧
      r2.recv_buffer = (recvAfter [2]).recv_buffer ∧ r2.received = (recvAfter [2]).received ∧
      r2.expected_seqnum = (recvAfter [2]).expected_seqnum) ∧
    (bufferPacket firstRecv (dataPkt 3 3)).received = firstRecv.received.set 3 true :=
  ⟨(C15_duplicate_leaves_receiver_unchanged 13 (recvAfter [2]) (dataPkt 2 2) recvAfter_two_reach
      (by decide) (by decide) (by decide)).1 (by decide),
   ((C15_duplicate_leaves_receiver_unchanged 13 firstRecv (dataPkt 3 3) firstRecv_reach
      (by decide) (by decide) (by decide)).2 (by decide)).2.1⟩

set_option maxRecDepth 100000 in
/-- Claim C16, at its failing input.  After `B_init` and packet 0 the
receiver has delivered packet 0 and expects 1.  A second arrival of packet 0
(a retransmission) is uncorrupted and behind `expected_seqnum`, outside the
window (`(0 - 1) mod SEQSPACE = 11`, not below `WINDOWSIZE`); its flag was
cleared at delivery, so `B_input` takes it as a fresh packet, stores it in
`recv_buffer[0]` and sets `received[0]`.  The same holds for a packet 0 that
carries other bytes. -/
theorem C16_packet_behind_expected_is_buffered :
    RReach firstRecv ∧ firstRecv.expected_seqnum = 1 ∧
    firstRecv.received.getD 0 false = false ∧ IsCorrupted (dataPkt 0 7) = false ∧
    ¬ (((dataPkt 0 7).seqnum - firstRecv.expected_seqnum) % SEQSPACE < WINDOWSIZE) ∧
    (Res.state (B_input 13 firstRecv (dataPkt 0 7))).map
        (fun r => (r.received.getD 0 false, r.recv_buffer.getD 0 Pkt.zero)) =
      some (true, dataPkt 0 7) ∧
    (Res.state (B_input 13 firstRecv (dataPkt 0 9))).map
        (fun r => (r.received.getD 0 false, r.recv_buffer.getD 0 Pkt.zero)) =
      some (true, dataPkt 0 9) :=
  ⟨firstRecv_reach, by decide, by decide, by decide, by decide, by decide, by decide⟩

/-! ## The receiver: packets 2, 3, 0, 1 -/

set_option maxRecDepth 100000 in
/-- Claim C17, refuted as stated.  After the packets 2 and 3, the call of
`B_input` for packet 0 delivers the payload of packet 0 at once (it does not
deliver nothing), and the call for packet 1 delivers the payloads of 1, 2
and 3 (not those of 0, 1, 2, 3). -/
theorem C17_packet_zero_delivered_on_arrival :
    (Res.events (B_input 13 (recvAfter [2, 3]) (dataPkt 0 0))).map delivered =
      some [List.replicate 20 0] ∧
    (Res.events (B_input 13 (recvAfter [2, 3]) (dataPkt 0 0))).map delivered ≠ some [] ∧
    (Res.events (B_input 13 (recvAfter [2, 3, 0]) (dataPkt 1 1))).map delivered ≠
      some [List.replicate 20 0, List.replicate 20 1, List.replicate 20 2,
        List.replicate 20 3] := by
  decide

set_option maxRecDepth 100000 in
/-- Claim C17, amended: from `B_init`, after the uncorrupted packets 2 and 3
the flags `received[2]` and `received[3]` are set, nothing has been delivered
and `expected_seqnum` is 0; the call for packet 0 delivers the payload of
packet 0 and moves `expected_seqnum` to 1; the call for packet 1 delivers the
payloads of 1, 2 and 3 in one sweep; over the run the payloads are delivered
in the order 0, 1, 2, 3, and `expected_seqnum` ends at 4 with every flag
clear. -/
theorem C17_reordered_arrivals :
    Res.state (runB 13 (B_init Receiver.boot) [dataPkt 2 2, dataPkt 3 3]) =
      some (recvAfter [2, 3]) ∧
    (Res.events (runB 13 (B_init Receiver.boot) [dataPkt 2 2, dataPkt 3 3])).map delivered =
      some [] ∧
    (recvAfter [2, 3]).received.getD 2 false = true ∧
    (recvAfter [2, 3]).received.getD 3 false = true ∧
    (recvAfter [2, 3]).expected_seqnum = 0 ∧
    Res.state (B_input 13 (recvAfter [2, 3]) (dataPkt 0 0)) = some (recvAfter [2, 3, 0]) ∧
    (Res.events (B_input 13 (recvAfter [2, 3]) (dataPkt 0 0))).map delivered =
      some [List.replicate 20 0] ∧
    (recvAfter [2, 3, 0]).expected_seqnum = 1 ∧
    Res.state (B_input 13 (recvAfter [2, 3, 0]) (dataPkt 1 1)) = some (recvAfter [2, 3, 0, 1]) ∧
    (Res.events (B_input 13 (recvAfter [2, 3, 0]) (dataPkt 1 1))).map delivered =
      some [List.replicate 20 1, List.replicate 20 2, List.replicate 20 3] ∧
    (Res.events (runB 13 (B_init Receiver.boot)
        [dataPkt 2 2, dataPkt 3 3, dataPkt 0 0, dataPkt 1 1])).map delivered =
      some [List.replicate 20 0, List.replicate 20 1, List.replicate 20 2,
        List.replicate 20 3] ∧
    (recvAfter [2, 3, 0, 1]).expected_seqnum = 4 ∧
    (recvAfter [2, 3, 0, 1]).received = List.replicate 12 false := by
  decide

/-! ## The sender: a new acknowledgment -/

/-- The base slide returns when a flag on its way is clear. -/
theorem slideBase_total (acked : List Bool) (k : Nat) :
    ∀ (b : Int) (fuel : Nat), 0 ≤ b ∧ b < 12 →
      acked.getD ((b + (k : Int)) % 12).toNat false = false → k < fuel →
      ∃ b2, slideBase fuel acked b = .ok b2 := by
  induction k with
  | zero =>
    intro b fuel hb hclear hfuel
    obtain ⟨f, rfl⟩ : ∃ f, fuel = f + 1 := ⟨fuel - 1, by omega⟩
    have hin : inBounds b = true := (inBounds_iff _).2 (by simp only [SEQSPACE]; exact hb)
    have e : (b + ((0 : Nat) : Int)) % 12 = b := by omega
    rw [e] at hclear
    exact ⟨b, by simp only [slideBase, hin, hclear, if_true, if_false, Bool.false_eq_true]⟩
  | succ k2 ih =>
    intro b fuel hb hclear hfuel
    obtain ⟨f, rfl⟩ : ∃ f, fuel = f + 1 := ⟨fuel - 1, by omega⟩
    have hin : inBounds b = true := (inBounds_iff _).2 (by simp only [SEQSPACE]; exact hb)
    by_cases hf : acked.getD b.toNat false = true
    · have e : (b + ((k2 + 1 : Nat) : Int)) % 12 = ((b + 1) % 12 + (k2 : Int)) % 12 := by omega
      rw [e] at hclear
      obtain ⟨b2, h2⟩ := ih ((b + 1) % 12) f (by omega) hclear (by omega)
      refine ⟨b2, ?_⟩
      simp only [slideBase, hin, hf, if_true]
      rw [succMod_eq b hb.1 (by simp only [SEQSPACE]; exact hb.2)]
      simp only [SEQSPACE]
      exact h2
    · exact ⟨b, by simp only [slideBase, hin, hf, if_true, if_false, Bool.false_eq_true]⟩

theorem sentPkts_timer_events (b next : Int) :
    sentPkts (if b = next then [Event.stoptimer 0]
      else [Event.stoptimer 0, Event.starttimer 0 TIMEOUT]) = [] := by
  split <;> rfl

/-- Claim C11: in a reachable sender state, for an uncorrupted packet whose
`acknum` is in the circular range `[base, nextseqnum)` with `acked[acknum]`
false, when `A_input` returns `acked[acknum]` is true, `nextseqnum` and
`window` are unchanged, no packet was sent, and the calls made are
`stoptimer` alone if `base = nextseqnum` afterwards and `stoptimer` followed
by `starttimer(TIMEOUT)` otherwise.  The call does return, for any fuel of 13
or more, when some other `acked` flag is clear. -/
theorem C11_effect_of_new_ack (fuel : Nat) (s : Sender) (packet : Pkt) (hr : SReach s)
    (hc : IsCorrupted packet = false)
    (ha : 0 ≤ packet.acknum ∧ packet.acknum < SEQSPACE)
    (hw : inCircRange s.base s.nextseqnum packet.acknum)
    (hf : s.acked.getD packet.acknum.toNat false = false) :
    (∀ s2 evs, A_input fuel s packet = .ok (s2, evs) →
      s2.acked.getD packet.acknum.toNat false = true ∧ s2.nextseqnum = s.nextseqnum ∧
      s2.window = s.window ∧ sentPkts evs = [] ∧
      evs = if s2.base = s2.nextseqnum then [Event.stoptimer 0]
            else [Event.stoptimer 0, Event.starttimer 0 TIMEOUT]) ∧
    ((∃ i : Nat, i < 12 ∧ i ≠ packet.acknum.toNat ∧ s.acked.getD i false = false) →
      13 ≤ fuel → ∃ s2 evs, A_input fuel s packet = .ok (s2, evs)) := by
  obtain ⟨hlen, hb1, hb2, hn1, hn2, _, _⟩ := SReach_SInv s hr
  have hin : inBounds packet.acknum = true := (inBounds_iff _).2 ha
  have hwin : in_window s.base s.nextseqnum packet.acknum = true :=
    (in_window_iff _ _ _ hb1 hb2 hn1 hn2 ha.1 ha.2).2 hw
  have halt : packet.acknum.toNat < s.acked.length := by
    have := ha.2
    simp only [SEQSPACE] at this
    rw [hlen]
    omega
  constructor
  · intro s2 evs h
    rcases A_input_cases fuel s packet s2 evs h with ⟨rfl, rfl⟩ | ⟨_, _, _, _, b, _, rfl, rfl⟩
    · -- the call cannot have discarded the packet
      have hnew := A_input_new_ack fuel s2 packet hc hwin hin hf
      rw [h] at hnew
      cases hsl : slideBase fuel (s2.acked.set packet.acknum.toNat true) s2.base with
      | ok b =>
        rw [hsl] at hnew
        by_cases hbn : b = s2.nextseqnum
        · simp only [hbn, if_true, Res.ok.injEq, Prod.mk.injEq] at hnew
          exact absurd hnew.2 (by simp)
        · simp only [hbn, if_false, Res.ok.injEq, Prod.mk.injEq] at hnew
          exact absurd hnew.2 (by simp)
      | outOfBounds =>
        rw [hsl] at hnew
        simp at hnew
      | outOfFuel =>
        rw [hsl] at hnew
        simp at hnew
    · exact ⟨getD_set_eq _ _ _ _ halt, rfl, rfl, sentPkts_timer_events _ _, rfl⟩
  · intro hclear hfuel
    obtain ⟨i, hi, hne, hfi⟩ := hclear
    have hfi2 : (s.acked.set packet.acknum.toNat true).getD i false = false := by
      rw [getD_set_ne _ _ _ _ _ (Ne.symm hne)]
      exact hfi
    obtain ⟨k, hk⟩ : ∃ k : Nat, (k : Int) = ((i : Int) - s.base) % 12 :=
      ⟨(((i : Int) - s.base) % 12).toNat, by omega⟩
    have e : ((s.base + (k : Int)) % 12).toNat = i := by omega
    obtain ⟨b2, hsl⟩ := slideBase_total (s.acked.set packet.acknum.toNat true) k s.base fuel
      ⟨hb1, hb2⟩ (by rw [e]; exact hfi2) (by omega)
    rw [A_input_new_ack fuel s packet hc hwin hin hf, hsl]
    by_cases hbn : b2 = s.nextseqnum
    · simp only [hbn, if_true]
      exact ⟨_, _, rfl⟩
    · simp only [hbn, if_false]
      exact ⟨_, _, rfl⟩

theorem firstSend_reach : SReach firstSend :=
  SReach.output _ _ _ _ (SReach.init Sender.boot (by decide)) firstSend_eq

set_option maxRecDepth 100000 in
theorem firstAck_eq :
    A_input 13 firstSend (ackpkt 0) = .ok (afterRounds 1, [Event.stoptimer 0]) := by
  decide

set_option maxRecDepth 100000 in
theorem C11_effect_of_new_ack_witness :
    ((afterRounds 1).acked.getD (ackpkt 0).acknum.toNat false = true ∧
      (afterRounds 1).nextseqnum = firstSend.nextseqnum ∧
      (afterRounds 1).window = firstSend.window ∧ sentPkts [Event.stoptimer 0] = [] ∧
      [Event.stoptimer 0] =
        if (afterRounds 1).base = (afterRounds 1).nextseqnum then [Event.stoptimer 0]
        else [Event.stoptimer 0, Event.starttimer 0 TIMEOUT]) ∧
    (∃ s2 evs, A_input 13 firstSend (ackpkt 0) = .ok (s2, evs)) :=
  ⟨(C11_effect_of_new_ack 13 firstSend (ackpkt 0) firstSend_reach (ackpkt_not_corrupted 0)
      (by decide) (by decide) (by decide)).1 _ _ firstAck_eq,
   (C11_effect_of_new_ack 13 firstSend (ackpkt 0) firstSend_reach (ackpkt_not_corrupted 0)
      (by decide) (by decide) (by decide)).2 ⟨1, by decide, by decide, by decide⟩ (by decide)⟩
/-! ## The sender: the timer and the window -/

theorem TReach_SReach (s : Sender) (t : Bool) (h : TReach s t) : SReach s := by
  induction h with
  | init s0 h0 => exact SReach.init s0 h0
  | output s t m s2 evs _ hstep ih => exact SReach.output s m s2 evs ih hstep
  | input fuel s t p s2 evs _ h1 h2 hstep ih => exact SReach.input fuel s p s2 evs ih h1 h2 hstep
  | timer s s2 evs _ hstep ih => exact SReach.timer s s2 evs ih hstep

theorem in_window_nonempty (base nextseqnum acknum : Int)
    (h : in_window base nextseqnum acknum = true) : base ≠ nextseqnum := by
  intro heq
  simp only [in_window, heq, Bool.or_eq_true, Bool.and_eq_true, decide_eq_true_eq] at h
  omega

theorem TReach_timer_iff (s : Sender) (t : Bool) (h : TReach s t) :
    t = true ↔ s.base ≠ s.nextseqnum := by
  induction h with
  | init s0 _ => simp [A_init]
  | output s t m s2 evs hprev hstep ih =>
    obtain ⟨_, hb1, hb2, hn1, hn2, hsz, _⟩ := SReach_SInv s (TReach_SReach s t hprev)
    rcases A_output_cases s m s2 evs hstep with ⟨_, rfl, rfl⟩ | ⟨hnf, _, pkt, rfl, rfl⟩
    · exact ih
    · rw [windowCount_eq s.base s.nextseqnum hb1 hb2 hn1 hn2] at hnf
      simp only [SEQSPACE, WINDOWSIZE] at hnf
      have hnx : imod (iadd s.nextseqnum 1) SEQSPACE = (s.nextseqnum + 1) % 12 :=
        succMod_eq _ hn1 hn2
      have hne : s.base ≠ (s.nextseqnum + 1) % 12 := by omega
      dsimp only
      rw [hnx]
      by_cases hbn : s.base = s.nextseqnum
      · simp [timerAfter, timerStep, hbn, hne]
        omega
      · have ht : t = true := ih.2 hbn
        simp [timerAfter, timerStep, hbn, hne, ht]
  | input fuel s t p s2 evs hprev _ _ hstep ih =>
    rcases A_input_cases fuel s p s2 evs hstep with
      ⟨rfl, rfl⟩ | ⟨_, _, _, _, b, _, rfl, rfl⟩
    · exact ih
    · dsimp only
      by_cases hbn : b = s.nextseqnum
      · simp [timerAfter, timerStep, hbn]
      · simp [timerAfter, timerStep, hbn]
  | timer s s2 evs hprev hstep ih =>
    obtain ⟨_, rfl, rfl⟩ := A_timerinterrupt_cases s s2 evs hstep
    have hne := ih.1 rfl
    simp [timerAfter, timerStep, hne]

/-- Claim C19: with the sender's timer modelled as a boolean that
`starttimer` sets, `stoptimer` clears and that is cleared when it fires,
`A_timerinterrupt` being called only while it is set, in every state reachable
from `A_init` (timer clear) by `A_output`, `A_input` (with `acknum` in
`[0, SEQSPACE)`) and `A_timerinterrupt` the timer is running exactly when
`base ≠ nextseqnum`; so a call of `A_output` that calls `starttimer` finds the
timer stopped, and a call of `A_input` that calls `stoptimer` finds it
running. -/
theorem C19_timer_tracks_window (s : Sender) (t : Bool) (h : TReach s t) :
    (t = true ↔ s.base ≠ s.nextseqnum) ∧
    (∀ m s2 evs e d, A_output s m = .ok (s2, evs) → Event.starttimer e d ∈ evs → t = false) ∧
    (∀ fuel p s2 evs e, 0 ≤ p.acknum → p.acknum < SEQSPACE →
      A_input fuel s p = .ok (s2, evs) → Event.stoptimer e ∈ evs → t = true) := by
  have hiff := TReach_timer_iff s t h
  refine ⟨hiff, ?_, ?_⟩
  · intro m s2 evs e d hstep hmem
    rcases A_output_cases s m s2 evs hstep with ⟨_, _, rfl⟩ | ⟨_, _, pkt, _, rfl⟩
    · simp at hmem
    · by_cases hbn : s.base = s.nextseqnum
      · by_contra hne
        have ht : t = true := by simpa using hne
        exact hiff.1 ht hbn
      · simp [hbn] at hmem
  · intro fuel p s2 evs e _ _ hstep hmem
    rcases A_input_cases fuel s p s2 evs hstep with ⟨_, rfl⟩ | ⟨_, hw, _, _, _⟩
    · simp at hmem
    · exact hiff.2 (in_window_nonempty _ _ _ hw)

theorem firstSend_timed : TReach firstSend true :=
  TReach.output _ false _ _ _ (TReach.init Sender.boot (by decide)) firstSend_eq

theorem C19_timer_tracks_window_witness :
    TReach firstSend true ∧ ((true = true ↔ firstSend.base ≠ firstSend.nextseqnum) ∧
    (∀ m s2 evs e d, A_output firstSend m = .ok (s2, evs) → Event.starttimer e d ∈ evs →
      true = false) ∧
    (∀ fuel p s2 evs e, 0 ≤ p.acknum → p.acknum < SEQSPACE →
      A_input fuel firstSend p = .ok (s2, evs) → Event.stoptimer e ∈ evs → true = true)) :=
  ⟨firstSend_timed, C19_timer_tracks_window firstSend true firstSend_timed⟩

/-! ## The sender: an acknowledgment number outside the sequence space -/

theorem A_input_out_of_bounds (fuel : Nat) (s : Sender) (p : Pkt) (hc : IsCorrupted p = false)
    (hw : in_window s.base s.nextseqnum p.acknum = true) (hin : inBounds p.acknum = false) :
    A_input fuel s p = .outOfBounds := by
  have hc2 := (checksum_ok_iff p).2 hc
  simp only [A_input, hc2, hw, hin, ne_eq, not_true_eq_false, Bool.not_true, Bool.not_false,
    if_false, if_true, Bool.false_eq_true]

theorem callA_reach (fuel : Nat) (s : Sender) (c : Call) (s2 : Sender) (evs : List Event)
    (hs : SReach s) (hc : c.inRange = true) (h : callA fuel s c = .ok (s2, evs)) :
    SReach s2 := by
  cases c with
  | output m => exact SReach.output s m s2 evs hs h
  | input p =>
    simp only [Call.inRange, Bool.and_eq_true, decide_eq_true_eq] at hc
    exact SReach.input fuel s p s2 evs hs hc.1 hc.2 h
  | timeout => exact SReach.timer s s2 evs hs h

theorem runA_reach (fuel : Nat) (cs : List Call) (s s2 : Sender) (evs : List Event)
    (hs : SReach s) (hcs : ∀ c, c ∈ cs → c.inRange = true)
    (h : runA fuel s cs = .ok (s2, evs)) : SReach s2 := by
  induction cs generalizing s s2 evs with
  | nil =>
    simp only [runA, Res.ok.injEq, Prod.mk.injEq] at h
    rw [← h.1]
    exact hs
  | cons c t ih =>
    rw [runA] at h
    cases h1 : callA fuel s c with
    | ok x1 =>
      rw [h1] at h
      simp only [Res.bind] at h
      cases h2 : runA fuel x1.1 t with
      | ok x2 =>
        obtain ⟨s3, evs3⟩ := x2
        rw [h2] at h
        simp only [Res.bind, Res.ok.injEq, Prod.mk.injEq] at h
        have hs1 : SReach x1.1 :=
          callA_reach fuel s c x1.1 x1.2 hs (hcs c (List.mem_cons_self _ _)) h1
        have := ih x1.1 s3 evs3 hs1 (fun q hq => hcs q (List.mem_cons_of_mem _ hq)) h2
        rw [← h.1]
        exact this
      | outOfBounds =>
        rw [h2] at h
        simp [Res.bind] at h
      | outOfFuel =>
        rw [h2] at h
        simp [Res.bind] at h
    | outOfBounds =>
      rw [h1] at h
      simp [Res.bind] at h
    | outOfFuel =>
      rw [h1] at h
      simp [Res.bind] at h

set_option maxRecDepth 100000 in
theorem wrapped_state :
    Res.state (runA 13 (A_init Sender.boot) wrapScript) = some wrapped := by
  decide

set_option maxRecDepth 100000 in
theorem wrapped_fields : wrapped.base = 11 ∧ wrapped.nextseqnum = 2 := by
  decide

set_option maxRecDepth 100000 in
theorem wrapped_reach : SReach wrapped := by
  obtain ⟨evs, h⟩ := Res.state_eq_some _ _ wrapped_state
  exact runA_reach 13 wrapScript _ _ evs (SReach.init Sender.boot (by decide)) (by decide) h

/-- Claim C20, at its failing input.  In a reachable sender state with
`base = 11` and `nextseqnum = 2`, a packet that passes the checksum test with
`acknum = -1` (and likewise with `acknum = 100`) is classified as inside the
window by the `in_window` expression, and `A_input` goes on to index `acked`
with it, outside the array. -/
theorem C20_acknum_outside_sequence_space_indexes_acked :
    SReach wrapped ∧ wrapped.base = 11 ∧ wrapped.nextseqnum = 2 ∧
    IsCorrupted (ackpkt (-1)) = false ∧ (ackpkt (-1)).acknum = -1 ∧
    in_window wrapped.base wrapped.nextseqnum (-1) = true ∧
    (∀ fuel, A_input fuel wrapped (ackpkt (-1)) = .outOfBounds) ∧
    IsCorrupted (ackpkt 100) = false ∧ (ackpkt 100).acknum = 100 ∧
    in_window wrapped.base wrapped.nextseqnum 100 = true ∧
    (∀ fuel, A_input fuel wrapped (ackpkt 100) = .outOfBounds) := by
  obtain ⟨hb, hn⟩ := wrapped_fields
  have hw1 : in_window wrapped.base wrapped.nextseqnum (-1) = true := by
    rw [hb, hn]
    decide
  have hw2 : in_window wrapped.base wrapped.nextseqnum 100 = true := by
    rw [hb, hn]
    decide
  exact ⟨wrapped_reach, hb, hn, ackpkt_not_corrupted _, rfl, hw1,
    fun fuel => A_input_out_of_bounds fuel wrapped (ackpkt (-1)) (ackpkt_not_corrupted _) hw1
      (by decide),
    ackpkt_not_corrupted _, rfl, hw2,
    fun fuel => A_input_out_of_bounds fuel wrapped (ackpkt 100) (ackpkt_not_corrupted _) hw2
      (by decide)⟩

/-! ## A round trip of one window without loss -/

theorem A_output_room (s : Sender) (m : Msg) (hm : m.WF)
    (hb : 0 ≤ s.base ∧ s.base < SEQSPACE) (hn : 0 ≤ s.nextseqnum ∧ s.nextseqnum < SEQSPACE)
    (hroom : (s.nextseqnum - s.base) % SEQSPACE < WINDOWSIZE) :
    A_output s m =
      .ok ({ s with
              window := s.window.set s.nextseqnum.toNat (mkData s.nextseqnum m)
              acked := s.acked.set s.nextseqnum.toNat false
              nextseqnum := (s.nextseqnum + 1) % SEQSPACE },
           Event.tolayer3 0 (mkData s.nextseqnum m) ::
             (if s.base = s.nextseqnum then [Event.starttimer 0 TIMEOUT] else [])) := by
  have hnot : ¬ imod (isub (iadd s.nextseqnum SEQSPACE) s.base) SEQSPACE ≥ WINDOWSIZE := by
    rw [windowCount_eq s.base s.nextseqnum hb.1 hb.2 hn.1 hn.2]
    omega
  have hin : inBounds s.nextseqnum = true := (inBounds_iff _).2 hn
  have hpay : (List.range 20).map (fun i => m.data.getD i 0) = m.data :=
    map_getD_range m.data 0 20 hm
  unfold A_output
  rw [if_neg hnot]
  simp only [hin, if_true, hpay, succMod_eq _ hn.1 hn.2, mkData]

theorem set_replicate_same {α : Type} (a : α) :
    ∀ (n i : Nat), (List.replicate n a).set i a = List.replicate n a
  | 0, _ => by simp
  | n + 1, 0 => by simp [List.replicate_succ]
  | n + 1, i + 1 => by simp [List.replicate_succ, set_replicate_same a n i]

theorem mkData_not_corrupted (seq : Int) (m : Msg) : IsCorrupted (mkData seq m) = false := by
  simp [IsCorrupted, ComputeChecksum, mkData]

theorem sentPkts_append (es1 es2 : List Event) :
    sentPkts (es1 ++ es2) = sentPkts es1 ++ sentPkts es2 := by
  induction es1 with
  | nil => rfl
  | cons e t ih =>
    cases e <;> simp [sentPkts, ih]

theorem sentPkts_timer_opt (b next : Int) :
    sentPkts (if b = next then [Event.starttimer 0 TIMEOUT] else []) = [] := by
  split <;> rfl

/-- The submits of a window: from an empty window at `base = 0`, up to
`WINDOWSIZE` messages are all accepted and sent with the sequence numbers in
order. -/
theorem runA_outputs (fuel : Nat) :
    ∀ (msgs : List Msg) (k : Nat) (s : Sender), s.base = 0 → s.nextseqnum = (k : Int) →
      k + msgs.length ≤ 6 → s.acked = List.replicate 12 false → (∀ m, m ∈ msgs → m.WF) →
      ∃ s1 e1, runA fuel s (msgs.map Call.output) = .ok (s1, e1) ∧ s1.base = 0 ∧
        s1.nextseqnum = ((k + msgs.length : Nat) : Int) ∧
        s1.acked = List.replicate 12 false ∧ s1.window_full = s.window_full ∧
        sentPkts e1 = dataPkts k msgs ∧ (msgs = [] → e1 = []) := by
  intro msgs
  induction msgs with
  | nil =>
    intro k s hb hn _ hacked _
    exact ⟨s, [], rfl, hb, by simpa using hn, hacked, rfl, rfl, fun _ => rfl⟩
  | cons m t ih =>
    intro k s hb hn hlen hacked hwf
    simp only [List.length_cons] at hlen
    have hstep := A_output_room s m (hwf m (List.mem_cons_self _ _))
      (by rw [hb]; decide) (by rw [hn]; simp only [SEQSPACE]; omega)
      (by rw [hb, hn]; simp only [SEQSPACE, WINDOWSIZE]; omega)
    have hnx : (s.nextseqnum + 1) % SEQSPACE = ((k + 1 : Nat) : Int) := by
      rw [hn]
      simp only [SEQSPACE]
      omega
    obtain ⟨s1, e1, hrun, h1, h2, h3, h4, h5, _⟩ := ih (k + 1)
      { s with
        window := s.window.set s.nextseqnum.toNat (mkData s.nextseqnum m)
        acked := s.acked.set s.nextseqnum.toNat false
        nextseqnum := (s.nextseqnum + 1) % SEQSPACE }
      hb hnx (by omega) (by dsimp only; rw [hacked]; exact set_replicate_same _ _ _)
      (fun q hq => hwf q (List.mem_cons_of_mem _ hq))
    refine ⟨s1,
      (Event.tolayer3 0 (mkData s.nextseqnum m) ::
        (if s.base = s.nextseqnum then [Event.starttimer 0 TIMEOUT] else [])) ++ e1,
      ?_, h1, ?_, h3, h4, ?_, ?_⟩
    · rw [List.map_cons, runA]
      simp only [callA, hstep, Res.bind, hrun]
    · rw [h2]
      simp only [List.length_cons]
      congr 1
      omega
    · rw [sentPkts_append]
      simp only [sentPkts, sentPkts_timer_opt, h5, hn, dataPkts, List.cons_append,
        List.nil_append]
    · intro hnil
      simp at hnil

theorem dataPkts_length (msgs : List Msg) (k : Nat) : (dataPkts k msgs).length = msgs.length := by
  induction msgs generalizing k with
  | nil => rfl
  | cons m t ih => simp [dataPkts, ih]

theorem dataPkts_seqnum (msgs : List Msg) :
    ∀ (k i : Nat), i < msgs.length →
      ((dataPkts k msgs).getD i Pkt.zero).seqnum = ((k + i : Nat) : Int) := by
  induction msgs with
  | nil =>
    intro k i hi
    simp at hi
  | cons m t ih =>
    intro k i hi
    cases i with
    | zero => simp [dataPkts, mkData]
    | succ j =>
      simp only [List.length_cons] at hi
      have := ih (k + 1) j (by omega)
      simp only [dataPkts, List.getD_cons_succ]
      rw [this]
      congr 1
      omega

theorem dataPkts_good (msgs : List Msg) (k : Nat) :
    ∀ p, p ∈ dataPkts k msgs → IsCorrupted p = false := by
  induction msgs generalizing k with
  | nil =>
    intro p hp
    simp [dataPkts] at hp
  | cons m t ih =>
    intro p hp
    simp only [dataPkts, List.mem_cons] at hp
    rcases hp with h | h
    · rw [h]
      exact mkData_not_corrupted _ _
    · exact ih (k + 1) p h

theorem dataPkts_payload (msgs : List Msg) (k : Nat) :
    (dataPkts k msgs).map Pkt.payload = msgs.map Msg.data := by
  induction msgs generalizing k with
  | nil => rfl
  | cons m t ih => simp [dataPkts, mkData, ih]

theorem dataPkts_acks (msgs : List Msg) (k : Nat) :
    (dataPkts k msgs).map (fun p => ackpkt p.seqnum) =
      (List.range' k msgs.length).map (fun (i : Nat) => ackpkt (i : Int)) := by
  induction msgs generalizing k with
  | nil => rfl
  | cons m t ih =>
    simp only [dataPkts, List.map_cons, List.length_cons, List.range'_succ, ih, mkData]
theorem runB_in_sequence (n : Nat) (hn : n ≤ 12) (pk : Nat → Pkt) (r0 : Receiver) (hr0 : r0.WF)
    (hseq : ∀ i, i < n → (pk i).seqnum = i) (hunc : ∀ i, i < n → IsCorrupted (pk i) = false)
    (fuel : Nat) (hfuel : 13 ≤ fuel) :
    ∃ r evs, runB fuel (B_init r0) ((List.range n).map pk) = .ok (r, evs) ∧
      delivered evs = (List.range n).map (fun i => (pk i).payload) := by
  have hinit : PInv n pk [] 0 (B_init r0) := by
    refine ⟨hr0.1, by simp [B_init, SEQSPACE], Nat.zero_le _, by simp [B_init], ?_, ?_, ?_, ?_⟩
    · intro i hi
      omega
    · intro i hi
      show (List.replicate 12 false).getD i false = true ↔ _
      rw [List.getD_eq_getElem?_getD, List.getElem?_replicate]
      simp [hi]
    · intro i _ hs
      simp at hs
    · intro i hs
      simp at hs
  obtain ⟨r, evs, d, hrun, hinv, hnot, _, hdel⟩ :=
    runB_arrivals n hn pk hseq hunc fuel hfuel (List.range n) [] 0 (B_init r0) hinit (by simp)
      (fun q hq => ⟨List.mem_range.1 hq, by simp⟩) (List.nodup_range n)
  obtain ⟨_, _, hdn, _, _, _, _, _⟩ := hinv
  have hd : d = n := by
    by_contra hne
    apply hnot
    simp only [List.append_nil, List.mem_reverse, List.mem_range]
    omega
  subst hd
  refine ⟨r, evs, hrun, ?_⟩
  rw [hdel, List.range_eq_range']
  simp

/-- The acknowledgments of a run of the receiver on uncorrupted packets: one
for each packet, with its sequence number, in order. -/
theorem runB_acks (fuel : Nat) :
    ∀ (ps : List Pkt) (r r2 : Receiver) (evs : List Event), RInv r →
      (∀ p, p ∈ ps → IsCorrupted p = false) → runB fuel r ps = .ok (r2, evs) →
      sentPkts evs = ps.map (fun p => ackpkt p.seqnum) := by
  intro ps
  induction ps with
  | nil =>
    intro r r2 evs _ _ h
    simp only [runB, Res.ok.injEq, Prod.mk.injEq] at h
    rw [← h.2]
    rfl
  | cons p t ih =>
    intro r r2 evs hinv hgood h
    rw [runB] at h
    cases h1 : B_input fuel r p with
    | ok x1 =>
      obtain ⟨r1, evs1⟩ := x1
      rw [h1] at h
      simp only [Res.bind] at h
      cases h2 : runB fuel r1 t with
      | ok x2 =>
        obtain ⟨r3, evs3⟩ := x2
        rw [h2] at h
        simp only [Res.bind, Res.ok.injEq, Prod.mk.injEq] at h
        have hrest := ih r1 r3 evs3 (RInv_input fuel r p r1 evs1 hinv h1)
          (fun q hq => hgood q (List.mem_cons_of_mem _ hq)) h2
        rcases B_input_cases fuel r p r1 evs1 h1 with ⟨hcor, _, _⟩ | ⟨_, _, evs2, hsw, rfl⟩
        · rw [hgood p (List.mem_cons_self _ _)] at hcor
          exact absurd hcor (by decide)
        · obtain ⟨_, _, _, _, _, _, hnone⟩ :=
            deliverSweep_sound fuel _ r1 evs2 (bufferPacket_WF r p hinv.1) hsw
          rw [← h.2, sentPkts_append, hrest]
          simp [sentPkts, hnone]
      | outOfBounds =>
        rw [h2] at h
        simp [Res.bind] at h
      | outOfFuel =>
        rw [h2] at h
        simp [Res.bind] at h
    | outOfBounds =>
      rw [h1] at h
      simp [Res.bind] at h
    | outOfFuel =>
      rw [h1] at h
      simp [Res.bind] at h

theorem slideBase_one (f : Nat) (acked : List Bool) (b : Int) (hb : 0 ≤ b ∧ b + 1 < 12)
    (h1 : acked.getD b.toNat false = true) (h2 : acked.getD (b + 1).toNat false = false) :
    slideBase (f + 2) acked b = .ok (b + 1) := by
  have hin1 : inBounds b = true := (inBounds_iff _).2 (by simp only [SEQSPACE]; omega)
  have hin2 : inBounds (b + 1) = true := (inBounds_iff _).2 (by simp only [SEQSPACE]; omega)
  have hnx : imod (iadd b 1) SEQSPACE = b + 1 := by
    rw [succMod_eq b hb.1 (by simp only [SEQSPACE]; omega)]
    simp only [SEQSPACE]
    omega
  rw [slideBase]
  simp only [hin1, h1, if_true, hnx]
  rw [slideBase]
  simp only [hin2, h2, if_true, if_false, Bool.false_eq_true]

/-- The acknowledgments `k, k + 1, ..., n - 1` arriving in order at a sender
whose window is `[k, n)` with no flag set: each moves `base` by one, and the
last leaves the timer stopped. -/
theorem runA_acks (fuel : Nat) (hfuel : 2 ≤ fuel) (n : Nat) (hn : n ≤ 6) :
    ∀ (j k : Nat) (s : Sender), k + j = n → s.base = (k : Int) → s.nextseqnum = (n : Int) →
      s.acked.length = 12 →
      (∀ i : Nat, k ≤ i → i ≤ n → s.acked.getD i false = false) →
      ∃ s2 e3, runA fuel s ((List.range' k j).map (fun (i : Nat) => Call.input (ackpkt (i : Int))))
          = .ok (s2, e3) ∧
        s2.base = (n : Int) ∧ s2.nextseqnum = (n : Int) ∧ (j = 0 → e3 = []) ∧
        (0 < j → ∃ e, e3 = e ++ [Event.stoptimer 0]) := by
  obtain ⟨f, rfl⟩ : ∃ f, fuel = f + 2 := ⟨fuel - 2, by omega⟩
  intro j
  induction j with
  | zero =>
    intro k s hk hb hnx _ _
    refine ⟨s, [], rfl, ?_, hnx, fun _ => rfl, fun h => absurd h (by omega)⟩
    rw [hb]
    omega
  | succ j2 ih =>
    intro k s hk hb hnx hlen hclear
    have hk0 : ((k : Int)).toNat = k := Int.toNat_ofNat k
    have hw : in_window s.base s.nextseqnum (ackpkt (k : Int)).acknum = true := by
      rw [hb, hnx]
      simp only [in_window, ackpkt, Bool.or_eq_true, Bool.and_eq_true, decide_eq_true_eq]
      omega
    have hin : inBounds (ackpkt (k : Int)).acknum = true :=
      (inBounds_iff _).2 (by simp only [ackpkt, SEQSPACE]; omega)
    have hf : s.acked.getD (ackpkt (k : Int)).acknum.toNat false = false := by
      simp only [ackpkt, hk0]
      exact hclear k (Nat.le_refl _) (by omega)
    have hslide : slideBase (f + 2) (s.acked.set (ackpkt (k : Int)).acknum.toNat true) s.base =
        .ok ((k : Int) + 1) := by
      rw [hb]
      apply slideBase_one
      · omega
      · simp only [ackpkt, hk0]
        exact getD_set_eq _ _ _ _ (by omega)
      · simp only [ackpkt, hk0]
        have e : ((k : Int) + 1).toNat = k + 1 := by omega
        rw [e, getD_set_ne _ _ _ _ _ (by omega)]
        exact hclear (k + 1) (by omega) (by omega)
    have hstep := A_input_new_ack (f + 2) s (ackpkt (k : Int)) (ackpkt_not_corrupted _) hw hin hf
    rw [hslide] at hstep
    simp only at hstep
    have hflags : ∀ i : Nat, k + 1 ≤ i → i ≤ n →
        (s.acked.set (ackpkt (k : Int)).acknum.toNat true).getD i false = false := by
      intro i h1 h2
      simp only [ackpkt, hk0]
      rw [getD_set_ne _ _ _ _ _ (by omega)]
      exact hclear i (by omega) h2
    obtain ⟨s2, e3, hrun, h1, h2, h3, h4⟩ := ih (k + 1)
      { s with
        acked := s.acked.set (ackpkt (k : Int)).acknum.toNat true
        new_ACKs := iadd s.new_ACKs 1
        base := (k : Int) + 1 }
      (by omega) (by simp) hnx (by simpa using hlen) hflags
    by_cases hlast : (k : Int) + 1 = s.nextseqnum
    · rw [if_pos hlast] at hstep
      have hj : j2 = 0 := by
        rw [hnx] at hlast
        omega
      refine ⟨s2, [Event.stoptimer 0] ++ e3, ?_, h1, h2, fun h => absurd h (by omega),
        fun _ => ⟨[], ?_⟩⟩
      · rw [List.range'_succ, List.map_cons, runA]
        simp only [callA, hstep, Res.bind, hrun]
      · rw [h3 hj]
        rfl
    · rw [if_neg hlast] at hstep
      have hj : 0 < j2 := by
        rw [hnx] at hlast
        omega
      obtain ⟨e, he⟩ := h4 hj
      refine ⟨s2, [Event.stoptimer 0, Event.starttimer 0 TIMEOUT] ++ e3, ?_, h1, h2,
        fun h => absurd h (by omega),
        fun _ => ⟨[Event.stoptimer 0, Event.starttimer 0 TIMEOUT] ++ e, ?_⟩⟩
      · rw [List.range'_succ, List.map_cons, runA]
        simp only [callA, hstep, Res.bind, hrun]
      · rw [he]
        simp
theorem getD_mem_of_lt {α : Type} (l : List α) (d : α) (i : Nat) (hi : i < l.length) :
    l.getD i d ∈ l := by
  rw [List.getD_eq_getElem?_getD, List.getElem?_eq_getElem hi]
  exact List.getElem_mem hi

theorem timerAfter_stop (t : Bool) (e : List Event) :
    timerAfter t (e ++ [Event.stoptimer 0]) = false := by
  simp [timerAfter, List.foldl_append, timerStep]

/-- Claim C18: from `A_init` and `B_init`, for `n ≤ WINDOWSIZE` messages of
20 bytes, the calls of `A_output` on the messages, then of `B_input` on the
packets the sender sent, then of `A_input` on the acknowledgments the receiver
sent, all return; at the end `base = nextseqnum = n`, the receiver has
delivered the `n` messages in the order of submission, no submit was rejected
(each sent its packet and `window_full` was not counted up), the timer is
stopped, and for `n ≥ 1` the last call the sender made is `stoptimer`. -/
theorem C18_loss_free_round_trip (msgs : List Msg) (s0 : Sender) (r0 : Receiver)
    (hr0 : r0.WF) (hn : (msgs.length : Int) ≤ WINDOWSIZE)
    (hm : ∀ m, m ∈ msgs → m.WF) (fuel : Nat) (hfuel : 13 ≤ fuel) :
    ∃ s1 e1 r1 e2 s2 e3,
      runA fuel (A_init s0) (msgs.map Call.output) = .ok (s1, e1) ∧
      runB fuel (B_init r0) (sentPkts e1) = .ok (r1, e2) ∧
      runA fuel s1 ((sentPkts e2).map Call.input) = .ok (s2, e3) ∧
      s2.base = (msgs.length : Int) ∧ s2.nextseqnum = (msgs.length : Int) ∧
      delivered e2 = msgs.map Msg.data ∧
      (sentPkts e1).length = msgs.length ∧ s1.window_full = s0.window_full ∧
      timerAfter false (e1 ++ e3) = false ∧
      (msgs ≠ [] → ∃ e, e1 ++ e3 = e ++ [Event.stoptimer 0]) := by
  have hn6 : msgs.length ≤ 6 := by
    simp only [WINDOWSIZE] at hn
    omega
  obtain ⟨s1, e1, hrun1, hb1, hnx1, hacked1, hfull1, hsent1, hnil1⟩ :=
    runA_outputs fuel msgs 0 (A_init s0) rfl rfl (by omega) rfl hm
  have hlenP : (dataPkts 0 msgs).length = msgs.length := dataPkts_length msgs 0
  have hseq : ∀ i, i < msgs.length →
      ((dataPkts 0 msgs).getD i Pkt.zero).seqnum = (i : Int) := by
    intro i hi
    rw [dataPkts_seqnum msgs 0 i hi]
    congr 1
    omega
  have hunc : ∀ i, i < msgs.length → IsCorrupted ((dataPkts 0 msgs).getD i Pkt.zero) = false := by
    intro i hi
    exact dataPkts_good msgs 0 _ (getD_mem_of_lt _ _ _ (by rw [hlenP]; exact hi))
  obtain ⟨r1, e2, hrun2, hdel2⟩ :=
    runB_in_sequence msgs.length (by omega) (fun i => (dataPkts 0 msgs).getD i Pkt.zero) r0 hr0
      hseq hunc fuel hfuel
  have hmap : (List.range msgs.length).map (fun i => (dataPkts 0 msgs).getD i Pkt.zero) =
      dataPkts 0 msgs := map_getD_range _ _ _ hlenP
  rw [hmap] at hrun2
  have hdel : delivered e2 = msgs.map Msg.data := by
    rw [hdel2, ← dataPkts_payload msgs 0]
    have : (List.range msgs.length).map
        (fun i => ((dataPkts 0 msgs).getD i Pkt.zero).payload) =
        ((List.range msgs.length).map (fun i => (dataPkts 0 msgs).getD i Pkt.zero)).map
          Pkt.payload := by
      rw [List.map_map]
      rfl
    rw [this, hmap]
  have hacks : sentPkts e2 =
      (List.range' 0 msgs.length).map (fun (i : Nat) => ackpkt (i : Int)) := by
    rw [runB_acks fuel _ _ _ _ (RInv_init r0 hr0) (dataPkts_good msgs 0) hrun2,
      dataPkts_acks]
  have hcalls : (sentPkts e2).map Call.input =
      (List.range' 0 msgs.length).map (fun (i : Nat) => Call.input (ackpkt (i : Int))) := by
    rw [hacks, List.map_map]
    rfl
  obtain ⟨s2, e3, hrun3, hb3, hnx3, hnil3, hlast3⟩ :=
    runA_acks fuel (by omega) msgs.length hn6 msgs.length 0 s1 (by omega) (by rw [hb1]; rfl)
      (by rw [hnx1]; congr 1; omega) (by rw [hacked1]; rfl)
      (by
        intro i _ hi
        rw [hacked1, List.getD_eq_getElem?_getD, List.getElem?_replicate]
        have : i < 12 := by omega
        simp [this])
  refine ⟨s1, e1, r1, e2, s2, e3, hrun1, by rw [hsent1]; exact hrun2, by rw [hcalls]; exact hrun3,
    hb3, hnx3, hdel, by rw [hsent1]; exact hlenP, hfull1, ?_, ?_⟩
  · by_cases hnil : msgs = []
    · have hlen0 : msgs.length = 0 := by rw [hnil]; rfl
      rw [hnil1 hnil, hnil3 hlen0]
      rfl
    · have hpos : 0 < msgs.length := List.length_pos.2 hnil
      obtain ⟨e, he⟩ := hlast3 hpos
      rw [he, ← List.append_assoc]
      exact timerAfter_stop _ _
  · intro hnil
    have hpos : 0 < msgs.length := List.length_pos.2 hnil
    obtain ⟨e, he⟩ := hlast3 hpos
    exact ⟨e1 ++ e, by rw [he, List.append_assoc]⟩

set_option maxRecDepth 100000 in
theorem C18_loss_free_round_trip_witness :
    ∃ s1 e1 r1 e2 s2 e3,
      runA 13 (A_init Sender.boot)
        ((([1, 2, 3, 4, 5, 6] : List Int).map msgOf).map Call.output) = .ok (s1, e1) ∧
      runB 13 (B_init Receiver.boot) (sentPkts e1) = .ok (r1, e2) ∧
      runA 13 s1 ((sentPkts e2).map Call.input) = .ok (s2, e3) ∧
      s2.base = ((([1, 2, 3, 4, 5, 6] : List Int).map msgOf).length : Int) ∧
      s2.nextseqnum = ((([1, 2, 3, 4, 5, 6] : List Int).map msgOf).length : Int) ∧
      delivered e2 = (([1, 2, 3, 4, 5, 6] : List Int).map msgOf).map Msg.data ∧
      (sentPkts e1).length = (([1, 2, 3, 4, 5, 6] : List Int).map msgOf).length ∧
      s1.window_full = Sender.boot.window_full ∧
      timerAfter false (e1 ++ e3) = false ∧
      ((([1, 2, 3, 4, 5, 6] : List Int).map msgOf) ≠ [] →
        ∃ e, e1 ++ e3 = e ++ [Event.stoptimer 0]) :=
  C18_loss_free_round_trip (([1, 2, 3, 4, 5, 6] : List Int).map msgOf) Sender.boot
    Receiver.boot (by decide) (by decide) (by decide) 13 (by decide)

end SR
